import Mathlib

/-!
# DynaMemSim — verification of the two memory-management engines

Shallow embedding of `src/main.py`:

* `DynamicPartition` — contiguous dynamic partition allocation with
  first-fit / best-fit / worst-fit placement and free-block coalescing
  (`MemoryBlock`, `Process`, `allocate`, `deallocate`,
  `_merge_adjacent_blocks`);
* `DynamicPaging` — demand paging with a page table, page faults and
  FIFO replacement (`Page`, `create_job`, `access_memory`,
  `_handle_page_fault`).

Conventions of the embedding:

* Python lists become `List`, dicts whose keys are consecutive
  integers `0..n-1` (the page table) become a `List` indexed by the key,
  and the `processes` dict becomes an association list in insertion
  order (its keys are unique, so order is irrelevant to the engine).
* Python integers are `Nat` (all quantities in the program are
  non-negative and no subtraction in the source can go below zero on
  the paths where it is executed).
* A Python function that can raise (the `KeyError` in
  `_handle_page_fault` when the evicted frame holds a page number that
  is not a key of the current page table, and the `TypeError` of
  `None * int` when a page is marked resident without a frame) returns
  `Option`: `none` models the uncaught exception.
* The return-value strings of the source are modelled by message
  inductives with one constructor per `return` site, so that distinct
  messages of the source stay distinguishable.
* The cosmetic random `disk_pos` tag of `Page` (spec §3: "opaque
  string/tag for display", generated from `random.randint`) is omitted:
  it is never read by the engine and has no deterministic value.
-/

/-! ## Dynamic partition engine (`class DynamicPartition`) -/

/-- `class MemoryBlock`: a contiguous region of partition memory. -/
structure MemoryBlock where
  start_addr : Nat
  size : Nat
  allocated : Bool
  process_id : Option Nat
deriving Repr, DecidableEq

/-- `class Process`: `pid` plus the requested amount of memory.
(The `allocated_block` attribute of the Python class is written by
`allocate` but never read back by the engine, so it is omitted.) -/
structure Process where
  pid : Nat
  memory_size : Nat
deriving Repr, DecidableEq

/-- One constructor per `return` message of `DynamicPartition`. -/
inductive PartitionMsg where
  /-- "进程 {pid} 已存在" -/
  | processExists (pid : Nat)
  /-- "成功为进程 {pid} 分配内存" -/
  | allocOk (pid : Nat)
  /-- "无法为进程 {pid} 分配 {size} 单位内存" -/
  | allocFail (pid : Nat) (size : Nat)
  /-- "进程 {pid} 不存在" -/
  | processNotFound (pid : Nat)
  /-- "进程 {pid} 没有分配内存块" -/
  | noAllocatedBlock (pid : Nat)
  /-- "成功释放进程 {pid} 的内存" -/
  | deallocOk (pid : Nat)
deriving Repr, DecidableEq

/-- State of `class DynamicPartition`. -/
structure DynamicPartition where
  memory_size : Nat
  memory_blocks : List MemoryBlock
  /-- `self.processes`: dict `pid ↦ Process`, as an association list in
  insertion order.  Keys are unique (membership is checked before every
  insert). -/
  processes : List (Nat × Process)
deriving Repr, DecidableEq

/-- `DynamicPartition.__init__`: one free block spanning all memory. -/
def initPartition (memory_size : Nat) : DynamicPartition :=
  ⟨memory_size, [⟨0, memory_size, false, none⟩], []⟩

/-- The `best_fit` loop of `allocate`: fold over the free candidates
(each paired with its index in `memory_blocks`), keeping the block that
strictly decreases `size - memory_size` (`min_size_diff` starts at
`inf`, modelled by the accumulator `none`; the running `min_size_diff`
always equals `suitable_block.size - process.memory_size`, so it is not
tracked separately). -/
def bestFitPick (cands : List (Nat × MemoryBlock)) (req : Nat) :
    Option (Nat × MemoryBlock) :=
  cands.foldl
    (fun acc c =>
      if req ≤ c.2.size &&
          (match acc with
           | none => true
           | some a => decide (c.2.size - req < a.2.size - req)) then
        some c
      else acc)
    none

/-- The `worst_fit` loop of `allocate`: like `bestFitPick` but keeping a
strict increase of `size - memory_size` (`max_size_diff` starts at `-1`,
so the first fitting block is always kept: accumulator `none`). -/
def worstFitPick (cands : List (Nat × MemoryBlock)) (req : Nat) :
    Option (Nat × MemoryBlock) :=
  cands.foldl
    (fun acc c =>
      if req ≤ c.2.size &&
          (match acc with
           | none => true
           | some a => decide (a.2.size - req < c.2.size - req)) then
        some c
      else acc)
    none

/-- `free_blocks = [block for block in self.memory_blocks if not
block.allocated]`, with each block paired with its position in
`memory_blocks` (in the source, the selection loops run over
`free_blocks` and recover the position with
`self.memory_blocks.index(block)`, which is identity-based and hence
yields the block's actual position). -/
def DynamicPartition.free_blocks (s : DynamicPartition) :
    List (Nat × MemoryBlock) :=
  s.memory_blocks.enum.filter (fun c => !c.2.allocated)

/-- The `suitable_block` / `suitable_index` selection step of
`allocate` (an unrecognized algorithm string leaves both unset). -/
def DynamicPartition.allocateChoice (s : DynamicPartition)
    (process : Process) (algorithm : String) : Option (Nat × MemoryBlock) :=
  if algorithm = "first_fit" then
    s.free_blocks.find? (fun c => process.memory_size ≤ c.2.size)
  else if algorithm = "best_fit" then
    bestFitPick s.free_blocks process.memory_size
  else if algorithm = "worst_fit" then
    worstFitPick s.free_blocks process.memory_size
  else
    none

/-- `DynamicPartition.allocate`.  Returns (new state, ok, message). -/
def DynamicPartition.allocate (s : DynamicPartition) (process : Process)
    (algorithm : String) : DynamicPartition × Bool × PartitionMsg :=
  if s.processes.any (fun q => q.1 == process.pid) then
    (s, false, .processExists process.pid)
  else
    match s.allocateChoice process algorithm with
    | none => (s, false, .allocFail process.pid process.memory_size)
    | some (suitable_index, b) =>
      let allocated_block : MemoryBlock :=
        ⟨b.start_addr, process.memory_size, true, some process.pid⟩
      let popped := s.memory_blocks.eraseIdx suitable_index
      let blocks' :=
        if process.memory_size < b.size then
          (popped.insertIdx suitable_index
              ⟨b.start_addr + process.memory_size,
               b.size - process.memory_size, false, none⟩).insertIdx
            suitable_index allocated_block
        else
          popped.insertIdx suitable_index allocated_block
      ({ s with memory_blocks := blocks',
                processes := s.processes ++ [(process.pid, process)] },
       true, .allocOk process.pid)

/-- `DynamicPartition._merge_adjacent_blocks`: the `while` loop with
index `i` is the structural sweep below — on a merge the loop keeps
`i` (here: recurse with the merged block back at the head), otherwise
it advances `i` (here: keep the head and recurse on the tail).  The
merge mutates only `current_block.size`, keeping its `start_addr`,
`allocated` and `process_id`. -/
def mergeAdjacentBlocks : List MemoryBlock → List MemoryBlock
  | [] => []
  | [b] => [b]
  | a :: b :: rest =>
    if !a.allocated && !b.allocated then
      mergeAdjacentBlocks ({ a with size := a.size + b.size } :: rest)
    else
      a :: mergeAdjacentBlocks (b :: rest)
termination_by l => l.length
decreasing_by all_goals simp

/-- `DynamicPartition.deallocate`: convert the first block owned by
`pid` to a free block of the same extent, run the coalescing pass, drop
the process from the map. -/
def DynamicPartition.deallocate (s : DynamicPartition) (pid : Nat) :
    DynamicPartition × Bool × PartitionMsg :=
  if s.processes.any (fun q => q.1 == pid) then
    match s.memory_blocks.enum.find?
        (fun c => c.2.allocated && c.2.process_id == some pid) with
    | none => (s, false, .noAllocatedBlock pid)
    | some (block_index, allocated_block) =>
      let free_block : MemoryBlock :=
        ⟨allocated_block.start_addr, allocated_block.size, false, none⟩
      let blocks' := mergeAdjacentBlocks
        (s.memory_blocks.set block_index free_block)
      ({ s with memory_blocks := blocks',
                processes := s.processes.filter (fun q => q.1 ≠ pid) },
       true, .deallocOk pid)
  else
    (s, false, .processNotFound pid)

/-! ## Dynamic paging engine (`class DynamicPaging`) -/

/-- `class Page`: one page-table entry.  `page_exists` models the
Python attribute `exists` (a Lean keyword); the cosmetic random
`disk_pos` tag is omitted (see the header). -/
structure Page where
  page_no : Nat
  page_exists : Bool
  frame_no : Option Nat
  modified : Bool
deriving Repr, DecidableEq

/-- The `self.current_job` dict (keys `id`, `size`, `pages_count`,
`allocated_frames_count`). -/
structure JobInfo where
  id : Nat
  size : Nat
  pages_count : Nat
  allocated_frames_count : Nat
deriving Repr, DecidableEq

/-- One constructor per `return` message of `create_job`. -/
inductive CreateMsg where
  /-- "作业大小超过最大限制 {max_job_size/1024}KB" -/
  | jobTooLarge
  /-- "分配的内存块数超过总内存块数 {total_frames}" -/
  | insufficientFrames
  /-- "内存不足，无法为作业分配足够的内存块" -/
  | outOfFrames
  /-- "成功创建作业 {job_id}，分配 {allocated_frames_count} 个内存块" -/
  | created (job_id : Nat) (allocated_frames_count : Nat)
deriving Repr, DecidableEq

/-- The second return value of `_handle_page_fault`. -/
inductive PageFaultMsg where
  /-- "FIFO队列为空，无法进行页面置换" -/
  | fifoEmpty
  /-- "淘汰第{page_no}页" -/
  | evictedPage (page_no : Nat)
  /-- "无需淘汰页面" -/
  | noPageEvicted
deriving Repr, DecidableEq

/-- The third return value of `access_memory` (`none` for Python
`None`). -/
inductive AccessMsg where
  /-- "页号 {page_no} 超出范围" -/
  | pageOutOfRange (page_no : Nat)
  /-- "无法调入页面，内存已满且无法置换" -/
  | cannotLoadPage
  /-- The `replaced_page` value handed through from
  `_handle_page_fault` on a successful fault. -/
  | replaced (info : PageFaultMsg)
deriving Repr, DecidableEq

/-- State of `class DynamicPaging`.  `page_table` is the dict
`{0: Page(0,…), …, n-1: Page(n-1,…)}`, whose keys are always exactly
`0..pages_count-1`, as a list indexed by page number. -/
structure DynamicPaging where
  memory_size : Nat
  page_size : Nat
  max_job_size : Nat
  total_frames : Nat
  /-- `self.frames`: slot `i` holds `some p` when page `p` is mapped
  into physical frame `i`, `none` when the frame is empty. -/
  frames : List (Option Nat)
  current_job : Option JobInfo
  page_table : List Page
  /-- `self.allocated_frames`: frame indices reserved for the current
  job, in the order they were appended. -/
  allocated_frames : List Nat
  /-- `self.frame_queue`: FIFO queue of frame indices for replacement. -/
  frame_queue : List Nat
deriving Repr, DecidableEq

/-- `DynamicPaging.__init__` (sizes are given in KB and scaled by
1024 once, matching the constructor). -/
def initPaging (memory_size page_size max_job_size : Nat) : DynamicPaging :=
  let ms := memory_size * 1024
  let ps := page_size * 1024
  let tf := ms / ps
  ⟨ms, ps, max_job_size * 1024, tf, List.replicate tf none, none, [], [], []⟩

/-- `DynamicPaging.create_job`.  Note the source order: the page table
is rebuilt and `allocated_frames` is reset to `[]` *before* the
free-frame count is checked, so the `outOfFrames` failure leaves both
behind; `frames`, `frame_queue` and `current_job` are only written on
success. -/
def DynamicPaging.create_job (s : DynamicPaging) (job_id job_size
    allocated_frames_count : Nat) : DynamicPaging × Bool × CreateMsg :=
  if s.max_job_size < job_size then
    (s, false, .jobTooLarge)
  else if s.total_frames < allocated_frames_count then
    (s, false, .insufficientFrames)
  else
    let pages_count := (job_size + s.page_size - 1) / s.page_size
    let page_table :=
      (List.range pages_count).map (fun i => Page.mk i false none false)
    let free_frames :=
      (s.frames.enum.filter (fun c => c.2 == none)).map (fun c => c.1)
    if free_frames.length < allocated_frames_count then
      ({ s with page_table := page_table, allocated_frames := [] },
       false, .outOfFrames)
    else
      ({ s with page_table := page_table,
                allocated_frames := free_frames.take allocated_frames_count,
                current_job := some ⟨job_id, job_size, pages_count,
                                     allocated_frames_count⟩,
                frame_queue := [] },
       true, .created job_id allocated_frames_count)

/-- `DynamicPaging._handle_page_fault`.  Result `none` models the
uncaught `KeyError` of `self.page_table[replaced_page_no]` when the
evicted frame holds a page number outside the current page table;
otherwise `some (state', frame_no, replaced_info)` mirrors the Python
return pair. -/
def DynamicPaging.handle_page_fault (s : DynamicPaging) (page_no : Nat) :
    Option (DynamicPaging × Option Nat × Option PageFaultMsg) :=
  let free_frames :=
    s.allocated_frames.filter (fun f => s.frames.getD f none == none)
  match free_frames with
  | frame_no :: _ =>
    some ({ s with frames := s.frames.set frame_no (some page_no),
                   frame_queue := s.frame_queue ++ [frame_no] },
          some frame_no, none)
  | [] =>
    match s.frame_queue with
    | [] => some (s, none, some .fifoEmpty)
    | replaced_frame :: rest =>
      match s.frames.getD replaced_frame none with
      | some replaced_page_no =>
        match s.page_table[replaced_page_no]? with
        | none => none
        | some replaced_page =>
          let pt := s.page_table.set replaced_page_no
            { replaced_page with page_exists := false, frame_no := none }
          some ({ s with page_table := pt,
                         frames := s.frames.set replaced_frame (some page_no),
                         frame_queue := rest ++ [replaced_frame] },
                some replaced_frame, some (.evictedPage replaced_page_no))
      | none =>
        some ({ s with frames := s.frames.set replaced_frame (some page_no),
                       frame_queue := rest ++ [replaced_frame] },
              some replaced_frame, some .noPageEvicted)

/-- Whether `operation in ["save", "存"]` (the store-like operations). -/
def isWriteOp (operation : String) : Bool :=
  operation == "save" || operation == "存"

/-- `DynamicPaging.access_memory`.  Result `none` models an uncaught
Python exception (propagated from the fault handler, or the `TypeError`
of `page.frame_no * page_size` when a page is marked resident with
`frame_no = None`).  In the source, `page` is the very object stored in
the table, so the writes after a successful fault land on the entry at
`page_no` of the post-fault table; the fault handler never touches a
`modified` flag, so that entry differs from the pre-fault `page` at most
in `page_exists`/`frame_no`, both of which are overwritten here. -/
def DynamicPaging.access_memory (s : DynamicPaging) (page_no offset : Nat)
    (operation : String) :
    Option (DynamicPaging × Option Nat × Bool × Option AccessMsg) :=
  match s.page_table[page_no]? with
  | none => some (s, none, false, some (.pageOutOfRange page_no))
  | some page =>
    if !page.page_exists then
      match s.handle_page_fault page_no with
      | none => none
      | some (s1, frame_no?, replaced_page) =>
        match frame_no? with
        | none => some (s1, none, true, some .cannotLoadPage)
        | some frame_no =>
          let pt' := s1.page_table.set page_no
            { page with page_exists := true, frame_no := some frame_no,
                        modified := page.modified || isWriteOp operation }
          some ({ s1 with page_table := pt' },
                some (frame_no * s.page_size + offset), true,
                replaced_page.map .replaced)
    else
      match page.frame_no with
      | none => none
      | some frame_no =>
        let pt' := s.page_table.set page_no
          { page with modified := page.modified || isWriteOp operation }
        some ({ s with page_table := pt' },
              some (frame_no * s.page_size + offset), false, none)

/-! ## Reachable states

One constructor per exported operation; `access` steps are the
completed (non-crashing) calls.  For `allocate`, the boundary contract
(spec §6) guarantees a validated positive request size, and the UI
(`_allocate_memory`) rejects `memory_size <= 0` before calling the
engine, so the step carries that hypothesis; likewise a construction
with non-positive `memory_size` is an invalid configuration (spec §7
"fail fast at engine construction"), so `init` requires a positive
size. -/

inductive PartReachable : DynamicPartition → Prop where
  | init (memory_size : Nat) (hpos : 0 < memory_size) :
      PartReachable (initPartition memory_size)
  | alloc (s : DynamicPartition) (p : Process) (alg : String)
      (hs : PartReachable s) (hpos : 0 < p.memory_size) :
      PartReachable (s.allocate p alg).1
  | dealloc (s : DynamicPartition) (pid : Nat) (hs : PartReachable s) :
      PartReachable (s.deallocate pid).1

inductive PagingReachable : DynamicPaging → Prop where
  | init (ms ps mjs : Nat) : PagingReachable (initPaging ms ps mjs)
  | create (s : DynamicPaging) (job_id job_size afc : Nat)
      (hs : PagingReachable s) :
      PagingReachable (s.create_job job_id job_size afc).1
  | access (s s' : DynamicPaging) (page_no offset : Nat) (op : String)
      (a : Option Nat) (f : Bool) (m : Option AccessMsg)
      (hs : PagingReachable s)
      (hstep : s.access_memory page_no offset op = some (s', a, f, m)) :
      PagingReachable s'

/-! ## Helper lemmas: the placement-policy selection loops -/

/-- `List.find?` returns the first element satisfying the predicate:
everything before it fails. -/
theorem find?_split {α : Type*} {p : α → Bool} {l : List α} {c : α}
    (h : l.find? p = some c) :
    ∃ l1 l2, l = l1 ++ c :: l2 ∧ p c = true ∧ ∀ d ∈ l1, p d = false := by
  induction l with
  | nil => simp at h
  | cons a t ih =>
    cases ha : p a with
    | true =>
      rw [List.find?_cons_of_pos _ ha] at h
      cases h
      exact ⟨[], t, rfl, ha, by simp⟩
    | false =>
      rw [List.find?_cons_of_neg _ (by simp [ha])] at h
      obtain ⟨l1, l2, rfl, hc, hl1⟩ := ih h
      refine ⟨a :: l1, l2, rfl, hc, ?_⟩
      intro d hd
      rcases List.mem_cons.mp hd with rfl | hd
      · exact ha
      · exact hl1 d hd

/-- Characterization of the `best_fit` loop: when it returns a block,
that block fits, all earlier fitting candidates are strictly worse
(so ties keep the first encountered), and all later fitting candidates
are no better; when it returns nothing, no candidate fits. -/
theorem bestFitPick_spec (req : Nat) (cands : List (Nat × MemoryBlock)) :
    (bestFitPick cands req = none → ∀ d ∈ cands, d.2.size < req) ∧
    (∀ c, bestFitPick cands req = some c →
      ∃ l1 l2, cands = l1 ++ c :: l2 ∧ req ≤ c.2.size ∧
        (∀ d ∈ l1, req ≤ d.2.size → c.2.size - req < d.2.size - req) ∧
        (∀ d ∈ l2, req ≤ d.2.size → c.2.size - req ≤ d.2.size - req)) := by
  induction cands using List.reverseRecOn with
  | nil =>
    constructor
    · intro _ d hd
      exact absurd hd (List.not_mem_nil d)
    · intro c hc
      simp [bestFitPick] at hc
  | append_singleton cs d ih =>
    have hstep : bestFitPick (cs ++ [d]) req =
        (if req ≤ d.2.size &&
            (match bestFitPick cs req with
             | none => true
             | some a => decide (d.2.size - req < a.2.size - req)) then
          some d
        else bestFitPick cs req) := by
      simp only [bestFitPick, List.foldl_append, List.foldl_cons, List.foldl_nil]
    rcases hp : bestFitPick cs req with _ | b
    · rw [hp] at hstep
      by_cases hfit : req ≤ d.2.size
      · rw [if_pos (by simp [hfit])] at hstep
        constructor
        · intro hnone
          rw [hstep] at hnone
          exact absurd hnone (by simp)
        · intro c hc
          rw [hstep] at hc
          cases hc
          refine ⟨cs, [], rfl, hfit, ?_, by simp⟩
          intro e he hee
          exact absurd (ih.1 hp e he) (by omega)
      · rw [if_neg (by simp [hfit])] at hstep
        constructor
        · intro _ e he
          rcases List.mem_append.mp he with he | he
          · exact ih.1 hp e he
          · rcases List.mem_singleton.mp he with rfl
            omega
        · intro c hc
          rw [hstep] at hc
          exact absurd hc (by simp [hp])
    · obtain ⟨l1, l2, hsplit, hfitb, hpre, hpost⟩ := ih.2 b hp
      rw [hp] at hstep
      constructor
      · intro hnone
        rw [hstep] at hnone
        by_cases hcond : req ≤ d.2.size ∧ d.2.size - req < b.2.size - req
        · simp [hcond.1, hcond.2] at hnone
        · have : ¬(req ≤ d.2.size && decide (d.2.size - req < b.2.size - req)) = true := by
            intro hh
            simp at hh
            exact hcond hh
          rw [if_neg this] at hnone
          exact absurd hnone (by simp)
      · intro c hc
        rw [hstep] at hc
        by_cases hcond : req ≤ d.2.size ∧ d.2.size - req < b.2.size - req
        · rw [if_pos (by simp [hcond.1, hcond.2])] at hc
          cases hc
          refine ⟨cs, [], rfl, hcond.1, ?_, by simp⟩
          intro e he hee
          subst hsplit
          rcases List.mem_append.mp he with he | he
          · have := hpre e he hee
            omega
          · rcases List.mem_cons.mp he with rfl | he
            · exact hcond.2
            · have := hpost e he hee
              omega
        · have : ¬(req ≤ d.2.size && decide (d.2.size - req < b.2.size - req)) = true := by
            intro hh
            simp at hh
            exact hcond hh
          rw [if_neg this] at hc
          cases hc
          refine ⟨l1, l2 ++ [d], by rw [hsplit]; simp, hfitb, hpre, ?_⟩
          intro e he hee
          rcases List.mem_append.mp he with he | he
          · exact hpost e he hee
          · rcases List.mem_singleton.mp he with rfl
            omega

/-- Characterization of the `worst_fit` loop, dual to
`bestFitPick_spec`. -/
theorem worstFitPick_spec (req : Nat) (cands : List (Nat × MemoryBlock)) :
    (worstFitPick cands req = none → ∀ d ∈ cands, d.2.size < req) ∧
    (∀ c, worstFitPick cands req = some c →
      ∃ l1 l2, cands = l1 ++ c :: l2 ∧ req ≤ c.2.size ∧
        (∀ d ∈ l1, req ≤ d.2.size → d.2.size - req < c.2.size - req) ∧
        (∀ d ∈ l2, req ≤ d.2.size → d.2.size - req ≤ c.2.size - req)) := by
  induction cands using List.reverseRecOn with
  | nil =>
    constructor
    · intro _ d hd
      exact absurd hd (List.not_mem_nil d)
    · intro c hc
      simp [worstFitPick] at hc
  | append_singleton cs d ih =>
    have hstep : worstFitPick (cs ++ [d]) req =
        (if req ≤ d.2.size &&
            (match worstFitPick cs req with
             | none => true
             | some a => decide (a.2.size - req < d.2.size - req)) then
          some d
        else worstFitPick cs req) := by
      simp only [worstFitPick, List.foldl_append, List.foldl_cons, List.foldl_nil]
    rcases hp : worstFitPick cs req with _ | b
    · rw [hp] at hstep
      by_cases hfit : req ≤ d.2.size
      · rw [if_pos (by simp [hfit])] at hstep
        constructor
        · intro hnone
          rw [hstep] at hnone
          exact absurd hnone (by simp)
        · intro c hc
          rw [hstep] at hc
          cases hc
          refine ⟨cs, [], rfl, hfit, ?_, by simp⟩
          intro e he hee
          exact absurd (ih.1 hp e he) (by omega)
      · rw [if_neg (by simp [hfit])] at hstep
        constructor
        · intro _ e he
          rcases List.mem_append.mp he with he | he
          · exact ih.1 hp e he
          · rcases List.mem_singleton.mp he with rfl
            omega
        · intro c hc
          rw [hstep] at hc
          exact absurd hc (by simp [hp])
    · obtain ⟨l1, l2, hsplit, hfitb, hpre, hpost⟩ := ih.2 b hp
      rw [hp] at hstep
      constructor
      · intro hnone
        rw [hstep] at hnone
        by_cases hcond : req ≤ d.2.size ∧ b.2.size - req < d.2.size - req
        · simp [hcond.1, hcond.2] at hnone
        · have : ¬(req ≤ d.2.size && decide (b.2.size - req < d.2.size - req)) = true := by
            intro hh
            simp at hh
            exact hcond hh
          rw [if_neg this] at hnone
          exact absurd hnone (by simp)
      · intro c hc
        rw [hstep] at hc
        by_cases hcond : req ≤ d.2.size ∧ b.2.size - req < d.2.size - req
        · rw [if_pos (by simp [hcond.1, hcond.2])] at hc
          cases hc
          refine ⟨cs, [], rfl, hcond.1, ?_, by simp⟩
          intro e he hee
          subst hsplit
          rcases List.mem_append.mp he with he | he
          · have := hpre e he hee
            omega
          · rcases List.mem_cons.mp he with rfl | he
            · exact hcond.2
            · have := hpost e he hee
              omega
        · have : ¬(req ≤ d.2.size && decide (b.2.size - req < d.2.size - req)) = true := by
            intro hh
            simp at hh
            exact hcond hh
          rw [if_neg this] at hc
          cases hc
          refine ⟨l1, l2 ++ [d], by rw [hsplit]; simp, hfitb, hpre, ?_⟩
          intro e he hee
          rcases List.mem_append.mp he with he | he
          · exact hpost e he hee
          · rcases List.mem_singleton.mp he with rfl
            omega

/-- Lift an ordering of `memory_blocks` to the indexed free-candidate
list (`free_blocks` is a filter of `enum`, which preserves order). -/
theorem free_blocks_pairwise_start (s : DynamicPartition)
    (hsort : s.memory_blocks.Pairwise (fun a b => a.start_addr < b.start_addr)) :
    s.free_blocks.Pairwise (fun a b => a.2.start_addr < b.2.start_addr) := by
  have h1 : s.memory_blocks.enum.Pairwise
      (fun a b => a.2.start_addr < b.2.start_addr) := by
    have h2 := hsort
    rw [← List.enum_map_snd s.memory_blocks, List.pairwise_map] at h2
    exact h2
  exact h1.filter _

/-- The conclusion of claim C4: what each placement policy selects,
relative to the candidate list `free_blocks` (ordered by ascending
start address whenever `memory_blocks` is). -/
def FitChoiceSpec (s : DynamicPartition) (process : Process) : Prop :=
  (∃ c l1 l2, s.allocateChoice process "first_fit" = some c ∧
      s.free_blocks = l1 ++ c :: l2 ∧ process.memory_size ≤ c.2.size ∧
      (∀ d ∈ l1, d.2.size < process.memory_size) ∧
      (∀ d ∈ l1, d.2.start_addr < c.2.start_addr)) ∧
  (∃ c l1 l2, s.allocateChoice process "best_fit" = some c ∧
      s.free_blocks = l1 ++ c :: l2 ∧ process.memory_size ≤ c.2.size ∧
      (∀ d ∈ s.free_blocks, process.memory_size ≤ d.2.size →
        c.2.size - process.memory_size ≤ d.2.size - process.memory_size) ∧
      (∀ d ∈ l1, process.memory_size ≤ d.2.size →
        c.2.size - process.memory_size < d.2.size - process.memory_size) ∧
      (∀ d ∈ l1, d.2.start_addr < c.2.start_addr)) ∧
  (∃ c l1 l2, s.allocateChoice process "worst_fit" = some c ∧
      s.free_blocks = l1 ++ c :: l2 ∧ process.memory_size ≤ c.2.size ∧
      (∀ d ∈ s.free_blocks, process.memory_size ≤ d.2.size →
        d.2.size - process.memory_size ≤ c.2.size - process.memory_size) ∧
      (∀ d ∈ l1, process.memory_size ≤ d.2.size →
        d.2.size - process.memory_size < c.2.size - process.memory_size) ∧
      (∀ d ∈ l1, d.2.start_addr < c.2.start_addr))

/-- **C4** (confirmed): with at least one fitting free block,
`first_fit` selects the first fitting free block in ascending-start
order; `best_fit` selects a fitting block minimizing
`size - requested_size`; `worst_fit` one maximizing it; and for
best/worst fit every earlier (lower-address) fitting candidate is
strictly worse, i.e. ties resolve to the first candidate in
ascending-address order. -/
theorem C4_placement_policies (s : DynamicPartition) (process : Process)
    (hsort : s.memory_blocks.Pairwise (fun a b => a.start_addr < b.start_addr))
    (hex : ∃ c ∈ s.free_blocks, process.memory_size ≤ c.2.size) :
    FitChoiceSpec s process := by
  have hpw := free_blocks_pairwise_start s hsort
  refine ⟨?_, ?_, ?_⟩
  · -- first_fit
    obtain ⟨c, hc⟩ : ∃ c, s.free_blocks.find?
        (fun c => process.memory_size ≤ c.2.size) = some c := by
      rcases hfind : s.free_blocks.find?
          (fun c => process.memory_size ≤ c.2.size) with _ | c
      · exfalso
        obtain ⟨e, he, hfit⟩ := hex
        have := List.find?_eq_none.mp hfind e he
        simp at this
        omega
      · exact ⟨c, hfind⟩
    obtain ⟨l1, l2, hsplit, hfit, hfail⟩ := find?_split hc
    refine ⟨c, l1, l2, by simpa [DynamicPartition.allocateChoice] using hc,
      hsplit, by simpa using hfit, ?_, ?_⟩
    · intro d hd
      have := hfail d hd
      simp at this
      omega
    · intro d hd
      exact (List.pairwise_append.mp (hsplit ▸ hpw)).2.2 d hd c (by simp)
  · -- best_fit
    rcases hb : bestFitPick s.free_blocks process.memory_size with _ | c
    · exfalso
      obtain ⟨e, he, hfit⟩ := hex
      have := (bestFitPick_spec process.memory_size s.free_blocks).1 hb e he
      omega
    · obtain ⟨l1, l2, hsplit, hfit, hpre, hpost⟩ :=
        (bestFitPick_spec process.memory_size s.free_blocks).2 c hb
      refine ⟨c, l1, l2, by simpa [DynamicPartition.allocateChoice] using hb,
        hsplit, hfit, ?_, hpre, ?_⟩
      · intro d hd hdfit
        rw [hsplit] at hd
        rcases List.mem_append.mp hd with hd | hd
        · exact le_of_lt (hpre d hd hdfit)
        · rcases List.mem_cons.mp hd with rfl | hd
          · exact le_rfl
          · exact hpost d hd hdfit
      · intro d hd
        exact (List.pairwise_append.mp (hsplit ▸ hpw)).2.2 d hd c (by simp)
  · -- worst_fit
    rcases hb : worstFitPick s.free_blocks process.memory_size with _ | c
    · exfalso
      obtain ⟨e, he, hfit⟩ := hex
      have := (worstFitPick_spec process.memory_size s.free_blocks).1 hb e he
      omega
    · obtain ⟨l1, l2, hsplit, hfit, hpre, hpost⟩ :=
        (worstFitPick_spec process.memory_size s.free_blocks).2 c hb
      refine ⟨c, l1, l2, by simpa [DynamicPartition.allocateChoice] using hb,
        hsplit, hfit, ?_, hpre, ?_⟩
      · intro d hd hdfit
        rw [hsplit] at hd
        rcases List.mem_append.mp hd with hd | hd
        · exact le_of_lt (hpre d hd hdfit)
        · rcases List.mem_cons.mp hd with rfl | hd
          · exact le_rfl
          · exact hpost d hd hdfit
      · intro d hd
        exact (List.pairwise_append.mp (hsplit ▸ hpw)).2.2 d hd c (by simp)

/-- A concrete partition state with free blocks of sizes 300, 120 and
602 at ascending addresses (the spec §8 shape where the three policies
diverge on a request of 100). -/
def c4state : DynamicPartition :=
  ⟨1024,
   [⟨0, 300, false, none⟩, ⟨300, 1, true, some 2⟩, ⟨301, 120, false, none⟩,
    ⟨421, 1, true, some 4⟩, ⟨422, 602, false, none⟩],
   [(2, ⟨2, 1⟩), (4, ⟨4, 1⟩)]⟩

/-- Witness for C4 at `c4state` with a request of 100 units. -/
theorem C4_placement_policies_witness :
    (c4state.memory_blocks.Pairwise (fun a b => a.start_addr < b.start_addr) ∧
      ∃ c ∈ c4state.free_blocks, (100 : Nat) ≤ c.2.size) ∧
    FitChoiceSpec c4state ⟨9, 100⟩ :=
  ⟨⟨by decide, by decide⟩,
   C4_placement_policies c4state ⟨9, 100⟩ (by decide) (by decide)⟩

/-! ## Helper lemmas: list surgery at an index -/

theorem eraseIdx_append_cons {α : Type*} (l1 l2 : List α) (b : α) :
    (l1 ++ b :: l2).eraseIdx l1.length = l1 ++ l2 := by
  induction l1 with
  | nil => rfl
  | cons a t ih => simpa [List.eraseIdx] using ih

theorem insertIdx_append_at {α : Type*} (l1 l2 : List α) (x : α) :
    (l1 ++ l2).insertIdx l1.length x = l1 ++ x :: l2 := by
  induction l1 with
  | nil => rfl
  | cons a t ih => simpa [List.insertIdx_succ_cons] using ih

/-- A member of `l.enum` splits `l` at its recorded index. -/
theorem mem_enum_split {α : Type*} {l : List α} {c : Nat × α}
    (h : c ∈ l.enum) :
    ∃ l1 l2, l = l1 ++ c.2 :: l2 ∧ l1.length = c.1 := by
  obtain ⟨i, x⟩ := c
  have h' : l[i]? = some x := List.mk_mem_enum_iff_getElem?.mp h
  have hi : i < l.length := by
    rcases List.getElem?_eq_some.mp h' with ⟨hlt, _⟩
    exact hlt
  obtain ⟨hlt, hx⟩ := List.getElem?_eq_some.mp h'
  refine ⟨l.take i, l.drop (i + 1), ?_, by simpa using Nat.le_of_lt hi⟩
  have hdrop : l[i] :: l.drop (i + 1) = l.drop i := List.getElem_cons_drop l i hlt
  calc l = l.take i ++ l.drop i := (List.take_append_drop i l).symm
    _ = l.take i ++ x :: l.drop (i + 1) := by rw [← hdrop, hx]

/-- The selection step only ever returns one of the free candidates. -/
theorem allocateChoice_mem {s : DynamicPartition} {process : Process}
    {alg : String} {c : Nat × MemoryBlock}
    (h : s.allocateChoice process alg = some c) : c ∈ s.free_blocks := by
  rw [DynamicPartition.allocateChoice] at h
  by_cases h1 : alg = "first_fit"
  · rw [if_pos h1] at h
    exact List.mem_of_find?_eq_some h
  · rw [if_neg h1] at h
    by_cases h2 : alg = "best_fit"
    · rw [if_pos h2] at h
      obtain ⟨l1, l2, hsplit, -⟩ :=
        (bestFitPick_spec process.memory_size s.free_blocks).2 c h
      rw [hsplit]
      simp
    · rw [if_neg h2] at h
      by_cases h3 : alg = "worst_fit"
      · rw [if_pos h3] at h
        obtain ⟨l1, l2, hsplit, -⟩ :=
          (worstFitPick_spec process.memory_size s.free_blocks).2 c h
        rw [hsplit]
        simp
      · rw [if_neg h3] at h
        exact absurd h (by simp)

/-- Members of `free_blocks` are unallocated blocks of `memory_blocks`,
located at their recorded index. -/
theorem free_blocks_split {s : DynamicPartition} {c : Nat × MemoryBlock}
    (h : c ∈ s.free_blocks) :
    c.2.allocated = false ∧
    ∃ l1 l2, s.memory_blocks = l1 ++ c.2 :: l2 ∧ l1.length = c.1 := by
  rw [DynamicPartition.free_blocks] at h
  refine ⟨by simpa using List.of_mem_filter h, ?_⟩
  exact mem_enum_split (List.mem_of_mem_filter h)

/-- Conclusion of claim C6: the chosen block is replaced in place by an
allocated block of exactly the requested size at the chosen start,
followed by a remainder free block exactly when the chosen block was
larger; everything else is unchanged and the process is recorded. -/
def AllocSuccessSpec (s : DynamicPartition) (process : Process)
    (alg : String) (c : Nat × MemoryBlock) : Prop :=
  (s.allocate process alg).2.1 = true ∧
  ∃ l1 l2, s.memory_blocks = l1 ++ c.2 :: l2 ∧ l1.length = c.1 ∧
    (s.allocate process alg).1.memory_blocks =
      l1 ++ MemoryBlock.mk c.2.start_addr process.memory_size true
              (some process.pid) ::
        ((if process.memory_size < c.2.size then
            [MemoryBlock.mk (c.2.start_addr + process.memory_size)
              (c.2.size - process.memory_size) false none]
          else []) ++ l2) ∧
    (s.allocate process alg).1.processes =
      s.processes ++ [(process.pid, process)] ∧
    (s.allocate process alg).1.memory_size = s.memory_size

/-- Shape of every successful `allocate` call (helper shared with the
reachability invariant). -/
theorem allocate_success_shape (s : DynamicPartition) (process : Process)
    (alg : String) (c : Nat × MemoryBlock)
    (hfresh : s.processes.any (fun q => q.1 == process.pid) = false)
    (hchoice : s.allocateChoice process alg = some c) :
    AllocSuccessSpec s process alg c := by
  obtain ⟨-, l1, l2, hsplit, hlen⟩ := free_blocks_split (allocateChoice_mem hchoice)
  have halloc : s.allocate process alg =
      (DynamicPartition.mk s.memory_size
        (if process.memory_size < c.2.size then
          ((s.memory_blocks.eraseIdx c.1).insertIdx c.1
              (MemoryBlock.mk (c.2.start_addr + process.memory_size)
                (c.2.size - process.memory_size) false none)).insertIdx c.1
            (MemoryBlock.mk c.2.start_addr process.memory_size true
              (some process.pid))
        else
          (s.memory_blocks.eraseIdx c.1).insertIdx c.1
            (MemoryBlock.mk c.2.start_addr process.memory_size true
              (some process.pid)))
        (s.processes ++ [(process.pid, process)]),
       true, .allocOk process.pid) := by
    rw [DynamicPartition.allocate, hfresh, hchoice]
    rcases c with ⟨i, b⟩
    by_cases hrem : process.memory_size < b.size
    · simp [hrem]
    · simp [hrem]
  refine ⟨by rw [halloc], l1, l2, hsplit, hlen, ?_, by rw [halloc], by rw [halloc]⟩
  rw [halloc]
  dsimp only
  rw [hsplit, ← hlen, eraseIdx_append_cons]
  by_cases hrem : process.memory_size < c.2.size
  · rw [if_pos hrem, if_pos hrem, insertIdx_append_at]
    have := insertIdx_append_at l1
      (MemoryBlock.mk (c.2.start_addr + process.memory_size)
        (c.2.size - process.memory_size) false none :: l2)
      (MemoryBlock.mk c.2.start_addr process.memory_size true
        (some process.pid))
    simpa using this
  · rw [if_neg hrem, if_neg hrem, insertIdx_append_at]
    simp

/-- **C6** (confirmed): shape of every successful `allocate` call: the
chosen free block is replaced in place by an allocated block of exactly
`requested_size` at the chosen start owned by the process, followed by
a remainder free block exactly when the chosen block was strictly
larger; all other blocks are untouched and the process is recorded. -/
theorem C6_allocate_success (s : DynamicPartition) (process : Process)
    (alg : String) (c : Nat × MemoryBlock)
    (hfresh : s.processes.any (fun q => q.1 == process.pid) = false)
    (hchoice : s.allocateChoice process alg = some c) :
    AllocSuccessSpec s process alg c :=
  allocate_success_shape s process alg c hfresh hchoice

/-- Witness for C6: allocating 100 units with `best_fit` in `c4state`
succeeds and splits the 120-unit free block at address 301. -/
theorem C6_allocate_success_witness :
    (c4state.processes.any (fun q => q.1 == (9 : Nat)) = false ∧
      c4state.allocateChoice ⟨9, 100⟩ "best_fit" =
        some (2, ⟨301, 120, false, none⟩)) ∧
    AllocSuccessSpec c4state ⟨9, 100⟩ "best_fit" (2, ⟨301, 120, false, none⟩) :=
  ⟨⟨by decide, by decide⟩,
   C6_allocate_success c4state ⟨9, 100⟩ "best_fit" (2, ⟨301, 120, false, none⟩)
     (by decide) (by decide)⟩

/-! ## The partition invariant (claims C5, C8) -/

/-- The blocks tile memory contiguously starting at address `a`, with
positive sizes. -/
def contiguousFromB (a : Nat) : List MemoryBlock → Bool
  | [] => true
  | b :: rest =>
    (b.start_addr == a) && decide (0 < b.size) &&
      contiguousFromB (b.start_addr + b.size) rest

/-- No two adjacent blocks are both free. -/
def noAdjacentFree (l : List MemoryBlock) : Prop :=
  l.Chain' (fun a b => a.allocated = true ∨ b.allocated = true)

/-- Total extent of a block list. -/
def sumSizes (l : List MemoryBlock) : Nat := (l.map MemoryBlock.size).sum

theorem sumSizes_nil : sumSizes [] = 0 := rfl

theorem sumSizes_cons (b : MemoryBlock) (l : List MemoryBlock) :
    sumSizes (b :: l) = b.size + sumSizes l := by
  simp [sumSizes]

theorem sumSizes_append (l1 l2 : List MemoryBlock) :
    sumSizes (l1 ++ l2) = sumSizes l1 + sumSizes l2 := by
  simp [sumSizes]

theorem contiguousFromB_cons (x : Nat) (b : MemoryBlock)
    (l : List MemoryBlock) :
    contiguousFromB x (b :: l) = true ↔
      (b.start_addr = x ∧ 0 < b.size ∧
        contiguousFromB (b.start_addr + b.size) l = true) := by
  simp [contiguousFromB, and_assoc]

theorem contiguousFromB_append (a : Nat) (l1 l2 : List MemoryBlock) :
    contiguousFromB a (l1 ++ l2) = true ↔
      (contiguousFromB a l1 = true ∧
        contiguousFromB (a + sumSizes l1) l2 = true) := by
  induction l1 generalizing a with
  | nil => simp [contiguousFromB, sumSizes]
  | cons b t ih =>
    rw [List.cons_append, contiguousFromB_cons, contiguousFromB_cons, ih,
      sumSizes_cons]
    constructor
    · rintro ⟨hstart, hpos, h1, h2⟩
      refine ⟨⟨hstart, hpos, h1⟩, ?_⟩
      have heq : b.start_addr + b.size + sumSizes t =
          a + (b.size + sumSizes t) := by omega
      rwa [heq] at h2
    · rintro ⟨⟨hstart, hpos, h1⟩, h2⟩
      refine ⟨hstart, hpos, h1, ?_⟩
      have heq : b.start_addr + b.size + sumSizes t =
          a + (b.size + sumSizes t) := by omega
      rwa [heq]

/-- The coalescing pass preserves the total extent. -/
theorem mergeAdjacentBlocks_sum (l : List MemoryBlock) :
    sumSizes (mergeAdjacentBlocks l) = sumSizes l := by
  induction l using mergeAdjacentBlocks.induct with
  | case1 => rw [mergeAdjacentBlocks]
  | case2 b => rw [mergeAdjacentBlocks]
  | case3 a b rest hfree ih =>
    rw [mergeAdjacentBlocks, if_pos hfree, ih]
    simp only [sumSizes_cons]
    omega
  | case4 a b rest hfree ih =>
    rw [mergeAdjacentBlocks, if_neg hfree]
    simp only [sumSizes_cons, ih]

/-- The coalescing pass preserves contiguous tiling. -/
theorem mergeAdjacentBlocks_contiguous (l : List MemoryBlock) :
    ∀ x, contiguousFromB x l = true →
      contiguousFromB x (mergeAdjacentBlocks l) = true := by
  induction l using mergeAdjacentBlocks.induct with
  | case1 => intro x h; rwa [mergeAdjacentBlocks]
  | case2 b => intro x h; rwa [mergeAdjacentBlocks]
  | case3 a b rest hfree ih =>
    intro x h
    rw [mergeAdjacentBlocks, if_pos hfree]
    apply ih
    rw [contiguousFromB_cons] at h
    obtain ⟨hstart, hpos, h2⟩ := h
    rw [contiguousFromB_cons] at h2
    obtain ⟨hstart2, hpos2, h3⟩ := h2
    rw [contiguousFromB_cons]
    refine ⟨hstart, by simp; omega, ?_⟩
    have heq : MemoryBlock.start_addr { a with size := a.size + b.size } +
        MemoryBlock.size { a with size := a.size + b.size } =
        b.start_addr + b.size := by
      simp
      omega
    rwa [heq]
  | case4 a b rest hfree ih =>
    intro x h
    rw [mergeAdjacentBlocks, if_neg hfree]
    rw [contiguousFromB_cons] at h ⊢
    exact ⟨h.1, h.2.1, ih _ h.2.2⟩

/-- The head block of the coalescing pass keeps the start address and
allocation status (and owner) of the input head. -/
theorem mergeAdjacentBlocks_head (b : MemoryBlock) (rest : List MemoryBlock) :
    ∃ b' t, mergeAdjacentBlocks (b :: rest) = b' :: t ∧
      b'.start_addr = b.start_addr ∧ b'.allocated = b.allocated ∧
      b'.process_id = b.process_id := by
  generalize hn : (b :: rest).length = n
  induction n using Nat.strong_induction_on generalizing b rest with
  | _ n ih =>
    match rest with
    | [] =>
      refine ⟨b, [], ?_, rfl, rfl, rfl⟩
      rw [mergeAdjacentBlocks]
    | c :: rest' =>
      by_cases hfree : (!b.allocated && !c.allocated) = true
      · rw [mergeAdjacentBlocks, if_pos hfree]
        have hlen : ({ b with size := b.size + c.size } :: rest').length < n := by
          subst hn
          simp
        obtain ⟨b', t, heq, h1, h2, h3⟩ :=
          ih _ hlen { b with size := b.size + c.size } rest' rfl
        exact ⟨b', t, heq, h1, h2, h3⟩
      · rw [mergeAdjacentBlocks, if_neg hfree]
        exact ⟨b, mergeAdjacentBlocks (c :: rest'), rfl, rfl, rfl, rfl⟩

/-- After the coalescing pass no two adjacent blocks are both free,
whatever the input. -/
theorem mergeAdjacentBlocks_noAdjacentFree (l : List MemoryBlock) :
    noAdjacentFree (mergeAdjacentBlocks l) := by
  induction l using mergeAdjacentBlocks.induct with
  | case1 =>
    rw [noAdjacentFree, mergeAdjacentBlocks]
    exact List.chain'_nil
  | case2 b =>
    rw [noAdjacentFree, mergeAdjacentBlocks]
    exact List.chain'_singleton b
  | case3 a b rest hfree ih =>
    rw [noAdjacentFree, mergeAdjacentBlocks, if_pos hfree]
    exact ih
  | case4 a b rest hfree ih =>
    rw [noAdjacentFree, mergeAdjacentBlocks, if_neg hfree]
    obtain ⟨b', t, heq, -, h2, -⟩ := mergeAdjacentBlocks_head b rest
    rw [heq]
    rw [noAdjacentFree, heq] at ih
    apply List.chain'_cons.mpr
    refine ⟨?_, ih⟩
    rw [h2]
    by_cases ha : a.allocated = true
    · exact Or.inl ha
    · right
      simp only [Bool.not_eq_true] at ha
      simpa [ha] using hfree

/-- Allocated blocks survive the coalescing pass untouched. -/
theorem mergeAdjacentBlocks_allocated_mem {x : MemoryBlock}
    (hx : x.allocated = true) :
    ∀ {l : List MemoryBlock}, x ∈ l → x ∈ mergeAdjacentBlocks l := by
  intro l
  induction l using mergeAdjacentBlocks.induct with
  | case1 =>
    intro h
    exact absurd h (List.not_mem_nil x)
  | case2 b =>
    intro h
    rwa [mergeAdjacentBlocks]
  | case3 a b rest hfree ih =>
    intro h
    rw [mergeAdjacentBlocks, if_pos hfree]
    apply ih
    have ha : a.allocated = false := by
      rcases (Bool.and_eq_true _ _).mp hfree with ⟨h1, -⟩
      simpa using h1
    have hb : b.allocated = false := by
      rcases (Bool.and_eq_true _ _).mp hfree with ⟨-, h2⟩
      simpa using h2
    rcases List.mem_cons.mp h with rfl | h
    · rw [hx] at ha
      cases ha
    · rcases List.mem_cons.mp h with rfl | h
      · rw [hx] at hb
        cases hb
      · exact List.mem_cons_of_mem _ h
  | case4 a b rest hfree ih =>
    intro h
    rw [mergeAdjacentBlocks, if_neg hfree]
    rcases List.mem_cons.mp h with rfl | h
    · exact List.mem_cons_self _ _
    · exact List.mem_cons_of_mem _ (ih h)

theorem set_append_at {α : Type*} (l1 l2 : List α) (b x : α) :
    (l1 ++ b :: l2).set l1.length x = l1 ++ x :: l2 := by
  induction l1 with
  | nil => rfl
  | cons a t ih => simp [List.set, ih]

/-- The selection step only returns blocks that fit the request. -/
theorem allocateChoice_fits {s : DynamicPartition} {process : Process}
    {alg : String} {c : Nat × MemoryBlock}
    (h : s.allocateChoice process alg = some c) :
    process.memory_size ≤ c.2.size := by
  rw [DynamicPartition.allocateChoice] at h
  by_cases h1 : alg = "first_fit"
  · rw [if_pos h1] at h
    have := List.find?_some h
    simpa using this
  · rw [if_neg h1] at h
    by_cases h2 : alg = "best_fit"
    · rw [if_pos h2] at h
      obtain ⟨l1, l2, -, hfit, -, -⟩ :=
        (bestFitPick_spec process.memory_size s.free_blocks).2 c h
      exact hfit
    · rw [if_neg h2] at h
      by_cases h3 : alg = "worst_fit"
      · rw [if_pos h3] at h
        obtain ⟨l1, l2, -, hfit, -, -⟩ :=
          (worstFitPick_spec process.memory_size s.free_blocks).2 c h
        exact hfit
      · rw [if_neg h3] at h
        exact absurd h (by simp)

/-- A contiguous tiling from `a` only contains blocks at or above `a`. -/
theorem contiguousFromB_le (l : List MemoryBlock) :
    ∀ a, contiguousFromB a l = true → ∀ y ∈ l, a ≤ y.start_addr := by
  induction l with
  | nil => intro a _ y hy; exact absurd hy (List.not_mem_nil y)
  | cons b t ih =>
    intro a h y hy
    rw [contiguousFromB_cons] at h
    obtain ⟨hstart, hpos, htail⟩ := h
    rcases List.mem_cons.mp hy with rfl | hy
    · omega
    · have := ih _ htail y hy
      omega

/-- Blocks of a contiguous tiling have positive sizes. -/
theorem contiguousFromB_pos (l : List MemoryBlock) :
    ∀ a, contiguousFromB a l = true → ∀ y ∈ l, 0 < y.size := by
  induction l with
  | nil => intro a _ y hy; exact absurd hy (List.not_mem_nil y)
  | cons b t ih =>
    intro a h y hy
    rw [contiguousFromB_cons] at h
    obtain ⟨hstart, hpos, htail⟩ := h
    rcases List.mem_cons.mp hy with rfl | hy
    · exact hpos
    · exact ih _ htail y hy

/-- A contiguous tiling is pairwise non-overlapping in list order. -/
theorem contiguousFromB_pairwise (l : List MemoryBlock) :
    ∀ a, contiguousFromB a l = true →
      l.Pairwise (fun x y => x.start_addr + x.size ≤ y.start_addr) := by
  induction l with
  | nil => intro a _; exact List.Pairwise.nil
  | cons b t ih =>
    intro a h
    rw [contiguousFromB_cons] at h
    obtain ⟨hstart, hpos, htail⟩ := h
    refine List.pairwise_cons.mpr ⟨?_, ih _ htail⟩
    intro y hy
    exact contiguousFromB_le t _ htail y hy

/-- The reachability invariant of the partition engine: contiguous
positive-size tiling of `[0, memory_size)`, no two adjacent free
blocks, and every tracked process owns an allocated block. -/
def PartInvariant (s : DynamicPartition) : Prop :=
  contiguousFromB 0 s.memory_blocks = true ∧
  sumSizes s.memory_blocks = s.memory_size ∧
  noAdjacentFree s.memory_blocks ∧
  ∀ q ∈ s.processes, ∃ b ∈ s.memory_blocks,
    b.allocated = true ∧ b.process_id = some q.1

theorem allocate_preserves_inv (s : DynamicPartition) (p : Process)
    (alg : String) (hpos : 0 < p.memory_size) (hinv : PartInvariant s) :
    PartInvariant (s.allocate p alg).1 := by
  by_cases hdup : s.processes.any (fun q => q.1 == p.pid) = true
  · have : (s.allocate p alg).1 = s := by
      simp [DynamicPartition.allocate, hdup]
    rwa [this]
  · have hfresh : s.processes.any (fun q => q.1 == p.pid) = false :=
      Bool.eq_false_iff.mpr hdup
    rcases hchoice : s.allocateChoice p alg with _ | c
    · have : (s.allocate p alg).1 = s := by
        simp [DynamicPartition.allocate, hfresh, hchoice]
      rwa [this]
    · obtain ⟨hok, l1, l2, hsplit, hlen, hblocks, hprocs, hms⟩ :=
        allocate_success_shape s p alg c hfresh hchoice
      have hfit : p.memory_size ≤ c.2.size := allocateChoice_fits hchoice
      have hcfree : c.2.allocated = false :=
        (free_blocks_split (allocateChoice_mem hchoice)).1
      obtain ⟨hc, hs, hn, ho⟩ := hinv
      rw [hsplit] at hc hs hn
      rw [hsplit] at ho
      obtain ⟨hc1, hc2⟩ := (contiguousFromB_append 0 l1 (c.2 :: l2)).mp hc
      rw [contiguousFromB_cons] at hc2
      obtain ⟨hstart, hszpos, hctail⟩ := hc2
      refine ⟨?_, ?_, ?_, ?_⟩
      · -- contiguity
        rw [hblocks, contiguousFromB_append]
        refine ⟨hc1, ?_⟩
        rw [contiguousFromB_cons]
        refine ⟨hstart, hpos, ?_⟩
        by_cases hrem : p.memory_size < c.2.size
        · rw [if_pos hrem]
          simp only [List.cons_append]
          rw [contiguousFromB_cons]
          dsimp only
          refine ⟨rfl, by omega, ?_⟩
          have heq : c.2.start_addr + p.memory_size +
              (c.2.size - p.memory_size) = c.2.start_addr + c.2.size := by
            omega
          rw [heq]
          exact hctail
        · rw [if_neg hrem]
          dsimp only
          simp only [List.nil_append]
          have heq : p.memory_size = c.2.size := by omega
          rw [heq]
          exact hctail
      · -- total extent
        rw [hblocks, hms, sumSizes_append, sumSizes_cons]
        rw [sumSizes_append, sumSizes_cons] at hs
        by_cases hrem : p.memory_size < c.2.size
        · rw [if_pos hrem]
          simp only [List.cons_append, sumSizes_cons, sumSizes_append,
            sumSizes_nil]
          omega
        · rw [if_neg hrem]
          simp only [List.nil_append, sumSizes_cons, sumSizes_append,
            sumSizes_nil]
          omega
      · -- no adjacent free blocks
        rw [hblocks]
        rw [noAdjacentFree] at hn ⊢
        obtain ⟨hnl1, hncons, hjunct⟩ := List.chain'_append.mp hn
        obtain ⟨hhead, hnl2⟩ := List.chain'_cons'.mp hncons
        refine List.chain'_append.mpr ⟨hnl1, ?_, ?_⟩
        · refine List.chain'_cons'.mpr ⟨?_, ?_⟩
          · intro y hy
            exact Or.inl rfl
          · by_cases hrem : p.memory_size < c.2.size
            · rw [if_pos hrem]
              simp only [List.cons_append]
              refine List.chain'_cons'.mpr ⟨?_, hnl2⟩
              intro y hy
              right
              have := hhead y hy
              rcases this with h | h
              · rw [hcfree] at h
                cases h
              · exact h
            · rw [if_neg hrem]
              simpa using hnl2
        · intro x hx y hy
          by_cases hrem : p.memory_size < c.2.size
          · rw [if_pos hrem] at hy
            simp at hy
            rw [← hy]
            exact Or.inr rfl
          · rw [if_neg hrem] at hy
            simp at hy
            rw [← hy]
            exact Or.inr rfl
      · -- owners
        rw [hblocks, hprocs]
        intro q hq
        rcases List.mem_append.mp hq with hq | hq
        · obtain ⟨b, hb, hballoc, hbown⟩ := ho q hq
          have hbne : b ≠ c.2 := by
            intro he
            rw [he, hcfree] at hballoc
            cases hballoc
          have hb' : b ∈ l1 ∨ b ∈ l2 := by
            rcases List.mem_append.mp hb with h | h
            · exact Or.inl h
            · rcases List.mem_cons.mp h with h | h
              · exact absurd h hbne
              · exact Or.inr h
          refine ⟨b, ?_, hballoc, hbown⟩
          rcases hb' with h | h
          · exact List.mem_append.mpr (Or.inl h)
          · refine List.mem_append.mpr (Or.inr ?_)
            refine List.mem_cons_of_mem _ ?_
            exact List.mem_append.mpr (Or.inr h)
        · rcases List.mem_singleton.mp hq with rfl
          refine ⟨MemoryBlock.mk c.2.start_addr p.memory_size true
            (some p.pid), ?_, rfl, rfl⟩
          refine List.mem_append.mpr (Or.inr ?_)
          exact List.mem_cons_self _ _

theorem deallocate_preserves_inv (s : DynamicPartition) (pid : Nat)
    (hinv : PartInvariant s) : PartInvariant (s.deallocate pid).1 := by
  by_cases hmem : s.processes.any (fun q => q.1 == pid) = true
  · rcases hfind : s.memory_blocks.enum.find?
        (fun c => c.2.allocated && c.2.process_id == some pid) with _ | c
    · have : (s.deallocate pid).1 = s := by
        rw [DynamicPartition.deallocate, if_pos (by simp [hmem]), hfind]
      rwa [this]
    · have hshape : (s.deallocate pid).1 = DynamicPartition.mk s.memory_size
          (mergeAdjacentBlocks (s.memory_blocks.set c.1
            (MemoryBlock.mk c.2.start_addr c.2.size false none)))
          (s.processes.filter (fun q => q.1 ≠ pid)) := by
        rw [DynamicPartition.deallocate, if_pos (by simp [hmem]), hfind]
      have hcprops : c.2.allocated = true ∧ c.2.process_id = some pid := by
        have := List.find?_some hfind
        simpa using this
      obtain ⟨l1, l2, hsplit, hlen⟩ :=
        mem_enum_split (List.mem_of_find?_eq_some hfind)
      obtain ⟨hc, hs, hn, ho⟩ := hinv
      have hset : s.memory_blocks.set c.1
          (MemoryBlock.mk c.2.start_addr c.2.size false none) =
          l1 ++ MemoryBlock.mk c.2.start_addr c.2.size false none :: l2 := by
        rw [hsplit, ← hlen, set_append_at]
      rw [hshape]
      refine ⟨?_, ?_, ?_, ?_⟩
      · -- contiguity
        apply mergeAdjacentBlocks_contiguous
        rw [hset]
        rw [hsplit] at hc
        obtain ⟨hc1, hc2⟩ := (contiguousFromB_append 0 l1 (c.2 :: l2)).mp hc
        rw [contiguousFromB_cons] at hc2
        obtain ⟨hstart, hszpos, hctail⟩ := hc2
        rw [contiguousFromB_append]
        refine ⟨hc1, ?_⟩
        rw [contiguousFromB_cons]
        exact ⟨hstart, hszpos, hctail⟩
      · -- total extent
        rw [mergeAdjacentBlocks_sum, hset]
        rw [hsplit] at hs
        rw [sumSizes_append, sumSizes_cons] at hs ⊢
        simpa using hs
      · -- no adjacent free blocks
        exact mergeAdjacentBlocks_noAdjacentFree _
      · -- owners
        intro q hq
        have hqne : q.1 ≠ pid := by
          have := List.of_mem_filter hq
          simpa using this
        obtain ⟨b, hb, hballoc, hbown⟩ := ho q (List.mem_of_mem_filter hq)
        have hbne : b ≠ c.2 := by
          intro he
          rw [he, hcprops.2] at hbown
          exact hqne (by simpa using hbown.symm)
        have hb' : b ∈ l1 ++ MemoryBlock.mk c.2.start_addr c.2.size
            false none :: l2 := by
          rw [hsplit] at hb
          rcases List.mem_append.mp hb with h | h
          · exact List.mem_append.mpr (Or.inl h)
          · rcases List.mem_cons.mp h with h | h
            · exact absurd h hbne
            · exact List.mem_append.mpr (Or.inr (List.mem_cons_of_mem _ h))
        refine ⟨b, ?_, hballoc, hbown⟩
        dsimp only
        rw [hset]
        exact mergeAdjacentBlocks_allocated_mem hballoc hb'
  · have : (s.deallocate pid).1 = s := by
      rw [DynamicPartition.deallocate,
        if_neg (by simp [Bool.eq_false_iff.mpr hmem])]
    rwa [this]

/-- Every reachable partition state satisfies the invariant. -/
theorem partInvariant_of_reachable {s : DynamicPartition}
    (h : PartReachable s) : PartInvariant s := by
  induction h with
  | init ms hpos =>
    refine ⟨?_, ?_, ?_, ?_⟩
    · simp [initPartition, contiguousFromB, hpos]
    · simp [initPartition, sumSizes]
    · exact List.chain'_singleton _
    · intro q hq
      exact absurd hq (List.not_mem_nil q)
  | alloc s p alg hs hpos ih => exact allocate_preserves_inv s p alg hpos ih
  | dealloc s pid hs ih => exact deallocate_preserves_inv s pid ih

/-- Conclusion of claim C5: contiguous tiling from address 0 with
positive sizes, total extent `memory_size`, no two adjacent free
blocks, and (hence) blocks pairwise non-overlapping and strictly
ordered by start address. -/
def PartInvariantSpec (s : DynamicPartition) : Prop :=
  contiguousFromB 0 s.memory_blocks = true ∧
  sumSizes s.memory_blocks = s.memory_size ∧
  noAdjacentFree s.memory_blocks ∧
  s.memory_blocks.Pairwise
    (fun a b => a.start_addr + a.size ≤ b.start_addr) ∧
  s.memory_blocks.Pairwise (fun a b => a.start_addr < b.start_addr)

/-- **C5** (confirmed): in every reachable state of the partition
engine the block list is ordered by start address, contiguous (each
block starts where the previous ends, the first at 0),
non-overlapping, sums to `memory_size`, and never has two adjacent
free blocks. -/
theorem C5_partition_invariant (s : DynamicPartition)
    (h : PartReachable s) : PartInvariantSpec s := by
  obtain ⟨hc, hs, hn, -⟩ := partInvariant_of_reachable h
  refine ⟨hc, hs, hn, contiguousFromB_pairwise _ _ hc, ?_⟩
  have hpw := contiguousFromB_pairwise _ _ hc
  have hpos := contiguousFromB_pos _ _ hc
  refine hpw.imp_of_mem ?_
  intro a b ha hb hab
  have := hpos a ha
  omega

/-- Witness for C5 at the freshly constructed engine. -/
theorem C5_partition_invariant_witness :
    PartReachable (initPartition 1024) ∧ PartInvariantSpec (initPartition 1024) :=
  ⟨PartReachable.init 1024 (by decide),
   C5_partition_invariant _ (PartReachable.init 1024 (by decide))⟩

/-- **C8** (confirmed): in every reachable partition state a tracked
process id owns an allocated block, so `deallocate` of a tracked id
always succeeds (the "进程 {pid} 没有分配内存块" branch is
unreachable). -/
theorem C8_deallocate_tracked (s : DynamicPartition) (pid : Nat)
    (h : PartReachable s) (hmem : pid ∈ s.processes.map Prod.fst) :
    (∃ b ∈ s.memory_blocks, b.allocated = true ∧ b.process_id = some pid) ∧
    (s.deallocate pid).2.1 = true := by
  obtain ⟨-, -, -, ho⟩ := partInvariant_of_reachable h
  obtain ⟨q, hq, hqpid⟩ := List.mem_map.mp hmem
  obtain ⟨b, hb, hballoc, hbown⟩ := ho q hq
  rw [hqpid] at hbown
  refine ⟨⟨b, hb, hballoc, hbown⟩, ?_⟩
  have hany : s.processes.any (fun r => r.1 == pid) = true :=
    List.any_eq_true.mpr ⟨q, hq, by simp [hqpid]⟩
  obtain ⟨i, hilt, hib⟩ := List.mem_iff_getElem.mp hb
  have henum : (i, b) ∈ s.memory_blocks.enum :=
    List.mk_mem_enum_iff_getElem?.mpr (by simp [hib, List.getElem?_eq_some, hilt])
  rcases hfind : s.memory_blocks.enum.find?
      (fun c => c.2.allocated && c.2.process_id == some pid) with _ | c
  · exfalso
    have := List.find?_eq_none.mp hfind (i, b) henum
    simp [hballoc, hbown] at this
  · rw [DynamicPartition.deallocate, if_pos (by simp [hany]), hfind]

/-- Witness for C8: deallocating process 1 after allocating it. -/
theorem C8_deallocate_tracked_witness :
    PartReachable ((initPartition 30).allocate ⟨1, 10⟩ "first_fit").1 ∧
    (1 : Nat) ∈ ((initPartition 30).allocate ⟨1, 10⟩ "first_fit").1.processes.map
      Prod.fst ∧
    ((∃ b ∈ ((initPartition 30).allocate ⟨1, 10⟩ "first_fit").1.memory_blocks,
        b.allocated = true ∧ b.process_id = some 1) ∧
      (((initPartition 30).allocate ⟨1, 10⟩ "first_fit").1.deallocate 1).2.1 =
        true) :=
  ⟨PartReachable.alloc _ _ _ (PartReachable.init 30 (by decide)) (by decide),
   by decide,
   C8_deallocate_tracked _ 1
     (PartReachable.alloc _ _ _ (PartReachable.init 30 (by decide)) (by decide))
     (by decide)⟩

/-! ## Claim C1: state after failed `create_job` -/

/-- Conclusion of the amended claim C1: the two early failures leave
the state exactly unchanged; an `outOfFrames` failure leaves `frames`,
`frame_queue` and `current_job` unchanged but has already rebuilt the
page table and cleared `allocated_frames`. -/
def CreateFailSpec (s : DynamicPaging) (job_id job_size afc : Nat) : Prop :=
  (s.max_job_size < job_size →
    s.create_job job_id job_size afc = (s, false, .jobTooLarge)) ∧
  (job_size ≤ s.max_job_size → s.total_frames < afc →
    s.create_job job_id job_size afc = (s, false, .insufficientFrames)) ∧
  ((s.create_job job_id job_size afc).2.2 = .outOfFrames →
    (s.create_job job_id job_size afc).1 =
      { s with
          page_table :=
            (List.range ((job_size + s.page_size - 1) / s.page_size)).map
              (fun i => Page.mk i false none false),
          allocated_frames := [] })

/-- **C1** (amended, see `C1_create_failure_counterexample`): what each
`create_job` failure leaves behind. -/
theorem C1_create_failure (s : DynamicPaging) (job_id job_size afc : Nat) :
    CreateFailSpec s job_id job_size afc := by
  refine ⟨?_, ?_, ?_⟩
  · intro h
    rw [DynamicPaging.create_job, if_pos h]
  · intro h1 h2
    rw [DynamicPaging.create_job, if_neg (by omega), if_pos h2]
  · intro h
    rw [DynamicPaging.create_job] at h ⊢
    by_cases h1 : s.max_job_size < job_size
    · rw [if_pos h1] at h
      cases h
    · rw [if_neg h1] at h ⊢
      by_cases h2 : s.total_frames < afc
      · rw [if_pos h2] at h
        cases h
      · rw [if_neg h2] at h ⊢
        by_cases h3 : ((s.frames.enum.filter (fun c => c.2 == none)).map
            (fun c => c.1)).length < afc
        · rw [if_pos h3]
        · rw [if_neg h3] at h
          cases h

/-- The paging state after creating a one-page job in a one-frame
engine and touching its page: frame 0 is full and queued. -/
def c1pre : DynamicPaging :=
  ⟨1024, 1024, 1024, 1, [some 0],
   some ⟨1, 1024, 1, 1⟩, [⟨0, true, some 0, false⟩], [0], [0]⟩

theorem c1pre_reachable : PagingReachable c1pre :=
  PagingReachable.access ((initPaging 1 1 1).create_job 1 1024 1).1 c1pre
    0 0 "load" (some 0) true none
    (PagingReachable.create (initPaging 1 1 1) 1 1024 1
      (PagingReachable.init 1 1 1))
    (by decide)

/-- **C1 counterexample**: in the reachable state `c1pre`, a second
`create_job` fails with `outOfFrames`, yet the page table and the
allocated-frame list have changed (page 0 was resident, afterwards the
rebuilt entry is non-resident; the allocated-frame list is cleared) —
the claim's "state unchanged ... no partial page table left behind" is
false for this failure kind. -/
theorem C1_create_failure_counterexample :
    PagingReachable c1pre ∧
    (c1pre.create_job 2 1024 1).2 = (false, CreateMsg.outOfFrames) ∧
    (c1pre.create_job 2 1024 1).1.page_table ≠ c1pre.page_table ∧
    (c1pre.create_job 2 1024 1).1.allocated_frames ≠ c1pre.allocated_frames :=
  ⟨c1pre_reachable, by decide, by decide, by decide⟩

/-- Witness for the amended C1: each failure kind realized at `c1pre`. -/
theorem C1_create_failure_witness :
    (c1pre.create_job 9 2048 1 = (c1pre, false, CreateMsg.jobTooLarge)) ∧
    (c1pre.create_job 9 1024 5 = (c1pre, false, CreateMsg.insufficientFrames)) ∧
    ((c1pre.create_job 2 1024 1).1 =
      { c1pre with
          page_table :=
            (List.range ((1024 + c1pre.page_size - 1) / c1pre.page_size)).map
              (fun i => Page.mk i false none false),
          allocated_frames := [] }) :=
  ⟨(C1_create_failure c1pre 9 2048 1).1 (by decide),
   (C1_create_failure c1pre 9 1024 5).2.1 (by decide) (by decide),
   (C1_create_failure c1pre 2 1024 1).2.2 (by decide)⟩

/-! ## Claim C7: access before any successful job creation -/

/-- States reachable without any *successful* `create_job` call. -/
inductive PagingReachNoJob : DynamicPaging → Prop where
  | init (ms ps mjs : Nat) : PagingReachNoJob (initPaging ms ps mjs)
  | create_fail (s : DynamicPaging) (job_id job_size afc : Nat)
      (hs : PagingReachNoJob s)
      (hfail : (s.create_job job_id job_size afc).2.1 = false) :
      PagingReachNoJob (s.create_job job_id job_size afc).1
  | access (s s' : DynamicPaging) (page_no offset : Nat) (op : String)
      (a : Option Nat) (f : Bool) (m : Option AccessMsg)
      (hs : PagingReachNoJob s)
      (hstep : s.access_memory page_no offset op = some (s', a, f, m)) :
      PagingReachNoJob s'

/-- Before a successful `create_job`, the page table is empty and every
frame is still empty. -/
theorem pagingReachNoJob_empty {s : DynamicPaging}
    (h : PagingReachNoJob s) :
    s.page_table = [] ∧ s.frames = List.replicate s.total_frames none := by
  induction h with
  | init ms ps mjs => exact ⟨rfl, rfl⟩
  | create_fail s job_id job_size afc hs hfail ih =>
    obtain ⟨hpt, hfr⟩ := ih
    rw [DynamicPaging.create_job] at hfail ⊢
    by_cases h1 : s.max_job_size < job_size
    · rw [if_pos h1] at hfail ⊢
      exact ⟨hpt, hfr⟩
    · rw [if_neg h1] at hfail ⊢
      by_cases h2 : s.total_frames < afc
      · rw [if_pos h2] at hfail ⊢
        exact ⟨hpt, hfr⟩
      · rw [if_neg h2] at hfail ⊢
        exfalso
        have hall : ∀ c ∈ s.frames.enum, (fun c => c.2 == none) c = true := by
          intro c hc
          have : c.2 ∈ s.frames := by
            obtain ⟨i, x⟩ := c
            have := List.mk_mem_enum_iff_getElem?.mp hc
            exact List.getElem?_mem this
          rw [hfr] at this
          have := List.eq_of_mem_replicate this
          simp [this]
        have hlen : ((s.frames.enum.filter (fun c => c.2 == none)).map
            (fun c => c.1)).length = s.total_frames := by
          rw [List.filter_eq_self.mpr hall]
          rw [List.length_map, List.enum_length, hfr, List.length_replicate]
        by_cases h3 : ((s.frames.enum.filter (fun c => c.2 == none)).map
            (fun c => c.1)).length < afc
        · rw [hlen] at h3
          omega
        · rw [if_neg h3] at hfail
          simp at hfail
  | access s s' page_no offset op a f m hs hstep ih =>
    obtain ⟨hpt, hfr⟩ := ih
    rw [DynamicPaging.access_memory, hpt] at hstep
    simp at hstep
    obtain ⟨rfl, -⟩ := hstep
    exact ⟨hpt, hfr⟩

/-- **C7** (amended, see `C7_no_job_counterexample`): every access
before a successful `create_job` returns no physical address and fails
with the page-out-of-range message (the page table is empty), without
touching the state; `page_fault` is reported as `false`. -/
theorem C7_access_before_job (s : DynamicPaging) (page_no offset : Nat)
    (op : String) (h : PagingReachNoJob s) :
    s.access_memory page_no offset op =
      some (s, none, false, some (.pageOutOfRange page_no)) := by
  obtain ⟨hpt, -⟩ := pagingReachNoJob_empty h
  rw [DynamicPaging.access_memory, hpt]
  rfl

/-- **C7 counterexample**: the failure kind returned at the no-job
state is `pageOutOfRange` — the *same* constructor returned for a
genuinely out-of-range page of an existing job — not a distinct
`NoCurrentJob` kind (no such return site exists in
`DynamicPaging.access_memory`, whose messages are enumerated by
`AccessMsg`; the "请先创建作业" guard lives in the UI layer, outside
the engine). -/
theorem C7_no_job_counterexample :
    (initPaging 1 1 1).access_memory 0 0 "load" =
      some (initPaging 1 1 1, none, false,
        some (AccessMsg.pageOutOfRange 0)) ∧
    ((initPaging 1 1 1).create_job 1 1024 1).1.access_memory 5 0 "load" =
      some (((initPaging 1 1 1).create_job 1 1024 1).1, none, false,
        some (AccessMsg.pageOutOfRange 5)) :=
  ⟨by decide, by decide⟩

/-- Witness for the amended C7 at a freshly constructed engine. -/
theorem C7_access_before_job_witness :
    PagingReachNoJob (initPaging 2 1 2) ∧
    (initPaging 2 1 2).access_memory 3 7 "save" =
      some (initPaging 2 1 2, none, false,
        some (AccessMsg.pageOutOfRange 3)) :=
  ⟨PagingReachNoJob.init 2 1 2,
   C7_access_before_job (initPaging 2 1 2) 3 7 "save"
     (PagingReachNoJob.init 2 1 2)⟩

/-! ## Shape lemmas for the page-fault paths of `access_memory` -/

/-- Forward evaluation: fault with a free allocated frame available. -/
theorem access_fault_free (s : DynamicPaging) (page_no offset : Nat)
    (op : String) (page : Page) (f : Nat) (fs : List Nat)
    (hpt : s.page_table[page_no]? = some page)
    (hex : page.page_exists = false)
    (hfree : s.allocated_frames.filter
      (fun g => s.frames.getD g none == none) = f :: fs) :
    s.access_memory page_no offset op =
      some ({ s with
          page_table := s.page_table.set page_no
            { page with page_exists := true, frame_no := some f,
                        modified := page.modified || isWriteOp op },
          frames := s.frames.set f (some page_no),
          frame_queue := s.frame_queue ++ [f] },
        some (f * s.page_size + offset), true, none) := by
  have hpf : s.handle_page_fault page_no =
      some ({ s with frames := s.frames.set f (some page_no),
                     frame_queue := s.frame_queue ++ [f] },
            some f, none) := by
    rw [DynamicPaging.handle_page_fault]
    simp only [hfree]
  rw [DynamicPaging.access_memory]
  simp only [hpt, hex, Bool.not_false, if_true, hpf, Option.map_none']

/-- Forward evaluation: fault with no free allocated frame and an
empty FIFO queue — no page can be brought in, nothing changes. -/
theorem access_fault_stuck (s : DynamicPaging) (page_no offset : Nat)
    (op : String) (page : Page)
    (hpt : s.page_table[page_no]? = some page)
    (hex : page.page_exists = false)
    (hfree : s.allocated_frames.filter
      (fun g => s.frames.getD g none == none) = [])
    (hq : s.frame_queue = []) :
    s.access_memory page_no offset op =
      some (s, none, true, some .cannotLoadPage) := by
  have hpf : s.handle_page_fault page_no =
      some (s, none, some .fifoEmpty) := by
    rw [DynamicPaging.handle_page_fault]
    simp only [hfree, hq]
  rw [DynamicPaging.access_memory]
  simp only [hpt, hex, Bool.not_false, if_true, hpf]

/-- Forward evaluation: FIFO replacement of a frame holding a page of
the current page table. -/
theorem access_fault_replace (s : DynamicPaging) (page_no offset : Nat)
    (op : String) (page : Page) (q0 : Nat) (rest : List Nat) (p : Nat)
    (rpg : Page)
    (hpt : s.page_table[page_no]? = some page)
    (hex : page.page_exists = false)
    (hfree : s.allocated_frames.filter
      (fun g => s.frames.getD g none == none) = [])
    (hq : s.frame_queue = q0 :: rest)
    (hfr : s.frames.getD q0 none = some p)
    (hrp : s.page_table[p]? = some rpg) :
    s.access_memory page_no offset op =
      some ({ s with
          page_table := (s.page_table.set p
              { rpg with page_exists := false, frame_no := none }).set page_no
            { page with page_exists := true, frame_no := some q0,
                        modified := page.modified || isWriteOp op },
          frames := s.frames.set q0 (some page_no),
          frame_queue := rest ++ [q0] },
        some (q0 * s.page_size + offset), true,
        some (.replaced (.evictedPage p))) := by
  have hpf : s.handle_page_fault page_no =
      some ({ s with
          page_table := s.page_table.set p
            { rpg with page_exists := false, frame_no := none },
          frames := s.frames.set q0 (some page_no),
          frame_queue := rest ++ [q0] },
        some q0, some (.evictedPage p)) := by
    rw [DynamicPaging.handle_page_fault]
    simp only [hfree, hq, hfr, hrp]
  rw [DynamicPaging.access_memory]
  simp only [hpt, hex, Bool.not_false, if_true, hpf, Option.map_some']

/-- Inverse dissection: any completed access that reports an evicted
page went through the FIFO-replacement branch, and the whole result is
determined by the pre-state. -/
theorem access_eviction_shape (s s' : DynamicPaging)
    (page_no offset : Nat) (op : String) (addr : Option Nat) (q : Nat)
    (h : s.access_memory page_no offset op =
      some (s', addr, true, some (.replaced (.evictedPage q)))) :
    ∃ page q0 rest rpg,
      s.page_table[page_no]? = some page ∧ page.page_exists = false ∧
      s.allocated_frames.filter
        (fun g => s.frames.getD g none == none) = [] ∧
      s.frame_queue = q0 :: rest ∧
      s.frames.getD q0 none = some q ∧
      s.page_table[q]? = some rpg ∧
      addr = some (q0 * s.page_size + offset) ∧
      s' = { s with
          page_table := (s.page_table.set q
              { rpg with page_exists := false, frame_no := none }).set page_no
            { page with page_exists := true, frame_no := some q0,
                        modified := page.modified || isWriteOp op },
          frames := s.frames.set q0 (some page_no),
          frame_queue := rest ++ [q0] } := by
  rcases hpt : s.page_table[page_no]? with _ | page
  · rw [DynamicPaging.access_memory] at h
    simp only [hpt] at h
    simp at h
  · rcases hex : page.page_exists with _ | _
    · rcases hff : s.allocated_frames.filter
          (fun g => s.frames.getD g none == none) with _ | ⟨f, fs⟩
      · rcases hq : s.frame_queue with _ | ⟨q0, rest⟩
        · rw [access_fault_stuck s page_no offset op page hpt hex hff hq] at h
          simp at h
        · rcases hfr : s.frames.getD q0 none with _ | p
          · -- frame empty: handler reports `noPageEvicted`, contradiction
            have hpf : s.handle_page_fault page_no =
                some ({ s with frames := s.frames.set q0 (some page_no),
                               frame_queue := rest ++ [q0] },
                      some q0, some .noPageEvicted) := by
              rw [DynamicPaging.handle_page_fault]
              simp only [hff, hq, hfr]
            rw [DynamicPaging.access_memory] at h
            simp only [hpt, hex, Bool.not_false, if_true, hpf,
              Option.map_some'] at h
            simp at h
          · rcases hrp : s.page_table[p]? with _ | rpg
            · -- KeyError: the call did not complete, contradiction
              have hpf : s.handle_page_fault page_no = none := by
                rw [DynamicPaging.handle_page_fault]
                simp only [hff, hq, hfr, hrp]
              rw [DynamicPaging.access_memory] at h
              simp only [hpt, hex, Bool.not_false, if_true, hpf] at h
              simp at h
            · rw [access_fault_replace s page_no offset op page q0 rest p rpg
                hpt hex hff hq hfr hrp] at h
              simp only [Option.some.injEq, Prod.mk.injEq] at h
              obtain ⟨hs', haddr, -, hmsg⟩ := h
              have hpq : p = q := by
                cases hmsg
                rfl
              subst hpq
              exact ⟨page, q0, rest, rpg, rfl, hex, rfl, rfl, hfr, hrp,
                haddr.symm, hs'.symm⟩
      · rw [access_fault_free s page_no offset op page f fs hpt hex hff] at h
        simp at h
    · -- resident page: no fault is reported, contradiction
      rw [DynamicPaging.access_memory] at h
      rcases hfn : page.frame_no with _ | f
      · simp [hpt, hex, hfn] at h
      · simp [hpt, hex, hfn] at h

/-! ## Claim C9: eviction leaves the dirty flag alone -/

/-- Conclusion of claim C9 for an access from `s` to `s'` that evicted
page `q` while faulting page `page_no` in: the evicted entry's
`modified` flag is untouched, and no page's `modified` flag is ever
cleared by the call. -/
def EvictionDirtySpec (s s' : DynamicPaging) (page_no q : Nat) : Prop :=
  (q ≠ page_no →
    (s'.page_table[q]?).map Page.modified =
      (s.page_table[q]?).map Page.modified) ∧
  (∀ (i : Nat) (pg pg' : Page), s.page_table[i]? = some pg →
    s'.page_table[i]? = some pg' → pg.modified = true → pg'.modified = true)

/-- **C9** (confirmed): FIFO eviction clears only the resident flag
and the frame assignment; the evicted page's dirty flag is unchanged,
so a page written before eviction still shows as dirty afterwards. -/
theorem C9_eviction_keeps_dirty (s s' : DynamicPaging)
    (page_no offset : Nat) (op : String) (addr : Option Nat) (q : Nat)
    (h : s.access_memory page_no offset op =
      some (s', addr, true, some (.replaced (.evictedPage q)))) :
    EvictionDirtySpec s s' page_no q := by
  obtain ⟨page, q0, rest, rpg, hpt, hex, -, -, -, hrp, -, hs'⟩ :=
    access_eviction_shape s s' page_no offset op addr q h
  have hqlt : q < s.page_table.length := by
    rcases List.getElem?_eq_some.mp hrp with ⟨hlt, -⟩
    exact hlt
  have hplt : page_no < s.page_table.length := by
    rcases List.getElem?_eq_some.mp hpt with ⟨hlt, -⟩
    exact hlt
  refine ⟨?_, ?_⟩
  · intro hne
    rw [hs']
    dsimp only
    rw [List.getElem?_set_ne (fun he => hne he.symm),
      List.getElem?_set_self hqlt, hrp]
    rfl
  · intro i pg pg' hpg hpg' hdirty
    rw [hs'] at hpg'
    dsimp only at hpg'
    by_cases hip : i = page_no
    · subst hip
      rw [List.getElem?_set_self (by simpa using hplt)] at hpg'
      cases hpg'
      rw [hpt] at hpg
      cases hpg
      simp [hdirty]
    · rw [List.getElem?_set_ne (fun he => hip he.symm)] at hpg'
      by_cases hiq : i = q
      · subst hiq
        rw [List.getElem?_set_self hqlt] at hpg'
        cases hpg'
        rw [hrp] at hpg
        cases hpg
        simpa using hdirty
      · rw [List.getElem?_set_ne (fun he => hiq he.symm)] at hpg'
        rw [hpg] at hpg'
        cases hpg'
        exact hdirty

/-- The paging state of a two-page job with a single frame whose page
0 has been written (dirty) and is resident in frame 0. -/
def c9pre : DynamicPaging :=
  ⟨1024, 1024, 2048, 1, [some 0], some ⟨7, 2048, 2, 1⟩,
   [⟨0, true, some 0, true⟩, ⟨1, false, none, false⟩], [0], [0]⟩

/-- The state after accessing page 1: page 0 was evicted and is still
dirty. -/
def c9post : DynamicPaging :=
  ⟨1024, 1024, 2048, 1, [some 1], some ⟨7, 2048, 2, 1⟩,
   [⟨0, false, none, true⟩, ⟨1, true, some 0, false⟩], [0], [0]⟩

/-- Witness for C9: evicting the dirty page 0 keeps it dirty. -/
theorem C9_eviction_keeps_dirty_witness :
    (c9pre.access_memory 1 0 "load" =
      some (c9post, some 0, true,
        some (AccessMsg.replaced (PageFaultMsg.evictedPage 0)))) ∧
    EvictionDirtySpec c9pre c9post 1 0 :=
  ⟨by decide,
   C9_eviction_keeps_dirty c9pre c9post 1 0 "load" (some 0) 0 (by decide)⟩

/-! ## Claim C10: jobs created with zero frames -/

/-- **C10** (confirmed): `create_job` accepts `frame_count = 0`
whenever the size check passes, leaving an empty allocated-frame list
and FIFO queue; in any state with an empty allocated-frame list and an
empty FIFO queue, accessing a non-resident page of the table returns
no physical address with `page_fault = true` and leaves the whole
state (page table, frame table, FIFO queue) unchanged. -/
theorem C10_zero_frame_job :
    (∀ (s : DynamicPaging) (job_id job_size : Nat),
      job_size ≤ s.max_job_size →
      s.create_job job_id job_size 0 =
        ({ s with
            page_table :=
              (List.range ((job_size + s.page_size - 1) / s.page_size)).map
                (fun i => Page.mk i false none false),
            allocated_frames := [],
            current_job := some ⟨job_id, job_size,
              (job_size + s.page_size - 1) / s.page_size, 0⟩,
            frame_queue := [] }, true, .created job_id 0)) ∧
    (∀ (s : DynamicPaging) (page_no offset : Nat) (op : String) (pg : Page),
      s.allocated_frames = [] → s.frame_queue = [] →
      s.page_table[page_no]? = some pg → pg.page_exists = false →
      s.access_memory page_no offset op =
        some (s, none, true, some .cannotLoadPage)) := by
  constructor
  · intro s job_id job_size hsize
    rw [DynamicPaging.create_job, if_neg (by omega), if_neg (by omega),
      if_neg (by omega)]
    rw [List.take_zero]
  · intro s page_no offset op pg haf hq hpt hex
    exact access_fault_stuck s page_no offset op pg hpt hex
      (by rw [haf]; rfl) hq

/-- The paging state after creating a one-page job with zero allocated
frames. -/
def c10state : DynamicPaging := ((initPaging 1 1 1).create_job 1 1024 0).1

/-- Witness for C10 at a one-frame engine. -/
theorem C10_zero_frame_job_witness :
    ((1024 : Nat) ≤ (initPaging 1 1 1).max_job_size ∧
      (initPaging 1 1 1).create_job 1 1024 0 =
        (c10state, true, CreateMsg.created 1 0)) ∧
    (c10state.allocated_frames = [] ∧ c10state.frame_queue = [] ∧
      c10state.page_table[0]? = some (Page.mk 0 false none false) ∧
      (Page.mk 0 false none false).page_exists = false ∧
      c10state.access_memory 0 5 "save" =
        some (c10state, none, true, some AccessMsg.cannotLoadPage)) :=
  ⟨⟨by decide, (C10_zero_frame_job).1 (initPaging 1 1 1) 1 1024 (by decide)⟩,
   by decide, by decide, by decide, by decide,
   (C10_zero_frame_job).2 c10state 0 5 "save" (Page.mk 0 false none false)
     (by decide) (by decide) (by decide) (by decide)⟩

/-! ## The paging invariant (claims C2, C3) -/

theorem getD_set_ne {α : Type*} (l : List α) (i j : Nat) (x d : α)
    (h : i ≠ j) : (l.set i x).getD j d = l.getD j d := by
  simp [List.getD_eq_getElem?_getD, List.getElem?_set_ne h]

theorem getD_set_self {α : Type*} (l : List α) (i : Nat) (x d : α)
    (h : i < l.length) : (l.set i x).getD i d = x := by
  simp [List.getD_eq_getElem?_getD, List.getElem?_set_self h]

theorem enumFrom_fst_facts {α : Type*} :
    ∀ (l : List α) (n : Nat),
      (l.enumFrom n).Pairwise (fun a b => a.1 < b.1) ∧
      ∀ x ∈ l.enumFrom n, n ≤ x.1 := by
  intro l
  induction l with
  | nil => intro n; exact ⟨List.Pairwise.nil, by simp⟩
  | cons a t ih =>
    intro n
    obtain ⟨hpw, hle⟩ := ih (n + 1)
    constructor
    · refine List.pairwise_cons.mpr ⟨?_, hpw⟩
      intro x hx
      have := hle x hx
      simp only []
      omega
    · intro x hx
      rcases List.mem_cons.mp hx with rfl | hx
      · exact le_rfl
      · have := hle x hx
        omega

/-- The `free_frames` list of `create_job`: strictly increasing frame
indices, all in range and all empty. -/
theorem free_frames_props (fr : List (Option Nat)) :
    ((fr.enum.filter (fun c => c.2 == none)).map (fun c => c.1)).Pairwise
      (· < ·) ∧
    ∀ f ∈ (fr.enum.filter (fun c => c.2 == none)).map (fun c => c.1),
      f < fr.length ∧ fr.getD f none = none := by
  constructor
  · have h1 : fr.enum.Pairwise (fun a b => a.1 < b.1) :=
      (enumFrom_fst_facts fr 0).1
    have h2 := h1.filter (fun c => c.2 == none)
    exact List.pairwise_map.mpr h2
  · intro f hf
    obtain ⟨⟨i, x⟩, hmem, rfl⟩ := List.mem_map.mp hf
    have hx : x = none := by
      have := List.of_mem_filter hmem
      simpa using this
    have hmem' : (i, x) ∈ fr.enum := List.mem_of_mem_filter hmem
    have hget := List.mk_mem_enum_iff_getElem?.mp hmem'
    constructor
    · rcases List.getElem?_eq_some.mp hget with ⟨hlt, -⟩
      exact hlt
    · rw [List.getD_eq_getElem?_getD, hget, hx]
      rfl

/-- Entries of the freshly rebuilt page table of `create_job`. -/
theorem fresh_page_table_entry (n i : Nat) (pg : Page)
    (h : ((List.range n).map (fun i => Page.mk i false none false))[i]? =
      some pg) : pg = Page.mk i false none false := by
  rw [List.getElem?_map] at h
  rcases hr : (List.range n)[i]? with _ | j
  · rw [hr] at h
    cases h
  · rw [hr] at h
    have : j = i := by
      rcases List.getElem?_eq_some.mp hr with ⟨hlt, hj⟩
      rw [List.getElem_range] at hj
      omega
    subst this
    cases h
    rfl

/-- The reachability invariant of the paging engine. -/
structure PagingInv (s : DynamicPaging) : Prop where
  frames_len : s.frames.length = s.total_frames
  alloc_sorted : s.allocated_frames.Pairwise (· < ·)
  alloc_lt : ∀ f ∈ s.allocated_frames, f < s.frames.length
  queue_lt : ∀ f ∈ s.frame_queue, f < s.frames.length
  queue_nodup : s.frame_queue.Nodup
  queue_filled : ∀ f ∈ s.frame_queue, s.frames.getD f none ≠ none
  queue_sub : s.allocated_frames ≠ [] →
    ∀ f ∈ s.frame_queue, f ∈ s.allocated_frames
  filled_in_queue : ∀ f ∈ s.allocated_frames,
    s.frames.getD f none ≠ none → f ∈ s.frame_queue
  frame_agree : ∀ f ∈ s.allocated_frames, ∀ p,
    s.frames.getD f none = some p →
    ∃ pg, s.page_table[p]? = some pg ∧ pg.page_exists = true ∧
      pg.frame_no = some f
  resident_agree : ∀ (i : Nat) (pg : Page), s.page_table[i]? = some pg →
    pg.page_exists = true →
    ∃ f, pg.frame_no = some f ∧ f < s.frames.length ∧
      s.frames.getD f none = some i

/-- Forward evaluation: access to a resident page. -/
theorem access_resident (s : DynamicPaging) (page_no offset : Nat)
    (op : String) (page : Page) (f : Nat)
    (hpt : s.page_table[page_no]? = some page)
    (hex : page.page_exists = true) (hfn : page.frame_no = some f) :
    s.access_memory page_no offset op =
      some ({ s with
          page_table := s.page_table.set page_no
            { page with modified := page.modified || isWriteOp op } },
        some (f * s.page_size + offset), false, none) := by
  rw [DynamicPaging.access_memory]
  simp only [hpt, hex, Bool.not_true, Bool.false_eq_true, if_false, hfn]

/-- Forward evaluation: access to a resident page whose frame
assignment is missing crashes (`TypeError` in the source). -/
theorem access_resident_crash (s : DynamicPaging) (page_no offset : Nat)
    (op : String) (page : Page)
    (hpt : s.page_table[page_no]? = some page)
    (hex : page.page_exists = true) (hfn : page.frame_no = none) :
    s.access_memory page_no offset op = none := by
  rw [DynamicPaging.access_memory]
  simp only [hpt, hex, Bool.not_true, Bool.false_eq_true, if_false, hfn]

/-- `create_job` preserves the paging invariant. -/
theorem pagingInv_create (s : DynamicPaging) (job_id job_size afc : Nat)
    (hinv : PagingInv s) : PagingInv (s.create_job job_id job_size afc).1 := by
  rw [DynamicPaging.create_job]
  by_cases h1 : s.max_job_size < job_size
  · rw [if_pos h1]
    exact hinv
  · rw [if_neg h1]
    by_cases h2 : s.total_frames < afc
    · rw [if_pos h2]
      exact hinv
    · rw [if_neg h2]
      by_cases h3 : ((s.frames.enum.filter (fun c => c.2 == none)).map
          (fun c => c.1)).length < afc
      · rw [if_pos h3]
        exact {
          frames_len := hinv.frames_len
          alloc_sorted := List.Pairwise.nil
          alloc_lt := by intro f hf; exact absurd hf (List.not_mem_nil f)
          queue_lt := hinv.queue_lt
          queue_nodup := hinv.queue_nodup
          queue_filled := hinv.queue_filled
          queue_sub := by intro h; exact absurd rfl h
          filled_in_queue := by
            intro f hf
            exact absurd hf (List.not_mem_nil f)
          frame_agree := by
            intro f hf
            exact absurd hf (List.not_mem_nil f)
          resident_agree := by
            intro i pg hpg hexi
            have := fresh_page_table_entry _ _ _ hpg
            rw [this] at hexi
            cases hexi }
      · rw [if_neg h3]
        exact {
          frames_len := hinv.frames_len
          alloc_sorted := ((free_frames_props s.frames).1).sublist
            (List.take_sublist _ _)
          alloc_lt := by
            intro f hf
            exact ((free_frames_props s.frames).2 f
              (List.mem_of_mem_take hf)).1
          queue_lt := by intro f hf; exact absurd hf (List.not_mem_nil f)
          queue_nodup := List.nodup_nil
          queue_filled := by intro f hf; exact absurd hf (List.not_mem_nil f)
          queue_sub := by intro _ f hf; exact absurd hf (List.not_mem_nil f)
          filled_in_queue := by
            intro f hf hne
            exact absurd ((free_frames_props s.frames).2 f
              (List.mem_of_mem_take hf)).2 hne
          frame_agree := by
            intro f hf p hp
            rw [((free_frames_props s.frames).2 f
              (List.mem_of_mem_take hf)).2] at hp
            cases hp
          resident_agree := by
            intro i pg hpg hexi
            have := fresh_page_table_entry _ _ _ hpg
            rw [this] at hexi
            cases hexi }

/-- A completed `access_memory` call preserves the paging invariant. -/
theorem pagingInv_access (s s' : DynamicPaging) (page_no offset : Nat)
    (op : String) (a : Option Nat) (fl : Bool) (m : Option AccessMsg)
    (hstep : s.access_memory page_no offset op = some (s', a, fl, m))
    (hinv : PagingInv s) : PagingInv s' := by
  rcases hpt : s.page_table[page_no]? with _ | page
  · rw [DynamicPaging.access_memory] at hstep
    simp only [hpt, Option.some.injEq, Prod.mk.injEq] at hstep
    obtain ⟨rfl, -⟩ := hstep
    exact hinv
  · have hplt : page_no < s.page_table.length := by
      rcases List.getElem?_eq_some.mp hpt with ⟨hlt, -⟩
      exact hlt
    rcases hex : page.page_exists with _ | _
    · -- page fault
      rcases hff : s.allocated_frames.filter
          (fun g => s.frames.getD g none == none) with _ | ⟨f, fs⟩
      · rcases hq : s.frame_queue with _ | ⟨q0, rest⟩
        · rw [access_fault_stuck s page_no offset op page hpt hex hff hq]
            at hstep
          simp only [Option.some.injEq, Prod.mk.injEq] at hstep
          obtain ⟨rfl, -⟩ := hstep
          exact hinv
        · have hq0q : q0 ∈ s.frame_queue := by
            rw [hq]
            exact List.mem_cons_self _ _
          have hq0lt : q0 < s.frames.length := hinv.queue_lt q0 hq0q
          rcases hfr : s.frames.getD q0 none with _ | p
          · exact absurd hfr (hinv.queue_filled q0 hq0q)
          · rcases hrp : s.page_table[p]? with _ | rpg
            · have hpf : s.handle_page_fault page_no = none := by
                rw [DynamicPaging.handle_page_fault]
                simp only [hff, hq, hfr, hrp]
              rw [DynamicPaging.access_memory] at hstep
              simp only [hpt, hex, Bool.not_false, if_true, hpf] at hstep
              cases hstep
            · -- FIFO replacement
              rw [access_fault_replace s page_no offset op page q0 rest p rpg
                hpt hex hff hq hfr hrp] at hstep
              simp only [Option.some.injEq, Prod.mk.injEq] at hstep
              obtain ⟨rfl, -⟩ := hstep
              have hrplt : p < s.page_table.length := by
                rcases List.getElem?_eq_some.mp hrp with ⟨hlt, -⟩
                exact hlt
              have hfull : ∀ g ∈ s.allocated_frames,
                  s.frames.getD g none ≠ none := by
                intro g hg hnone
                have h5 := List.filter_eq_nil_iff.mp hff g hg
                rw [hnone] at h5
                simp at h5
              have hqnodup : q0 ∉ rest ∧ rest.Nodup := by
                have := hinv.queue_nodup
                rw [hq] at this
                exact List.nodup_cons.mp this
              have hrestq : ∀ g ∈ rest, g ∈ s.frame_queue := by
                intro g hg
                rw [hq]
                exact List.mem_cons_of_mem _ hg
              exact {
                frames_len := by
                  rw [List.length_set]
                  exact hinv.frames_len
                alloc_sorted := hinv.alloc_sorted
                alloc_lt := by
                  intro g hg
                  rw [List.length_set]
                  exact hinv.alloc_lt g hg
                queue_lt := by
                  intro g hg
                  rw [List.length_set]
                  rcases List.mem_append.mp hg with hg | hg
                  · exact hinv.queue_lt g (hrestq g hg)
                  · rcases List.mem_singleton.mp hg with rfl
                    exact hq0lt
                queue_nodup := by
                  rw [List.nodup_append]
                  refine ⟨hqnodup.2, List.nodup_singleton q0, ?_⟩
                  intro g hg hgq
                  rcases List.mem_singleton.mp hgq with rfl
                  exact hqnodup.1 hg
                queue_filled := by
                  intro g hg
                  by_cases hgq : g = q0
                  · subst hgq
                    rw [getD_set_self _ _ _ _ hq0lt]
                    simp
                  · rw [getD_set_ne _ _ _ _ _ (fun he => hgq he.symm)]
                    rcases List.mem_append.mp hg with hg | hg
                    · exact hinv.queue_filled g (hrestq g hg)
                    · exact absurd (List.mem_singleton.mp hg) hgq
                queue_sub := by
                  intro hne g hg
                  rcases List.mem_append.mp hg with hg | hg
                  · exact hinv.queue_sub hne g (hrestq g hg)
                  · rcases List.mem_singleton.mp hg with rfl
                    exact hinv.queue_sub hne _ hq0q
                filled_in_queue := by
                  intro g hg hgne
                  by_cases hgq : g = q0
                  · subst hgq
                    exact List.mem_append.mpr
                      (Or.inr (List.mem_singleton.mpr rfl))
                  · rw [getD_set_ne _ _ _ _ _ (fun he => hgq he.symm)] at hgne
                    have := hinv.filled_in_queue g hg hgne
                    rw [hq] at this
                    rcases List.mem_cons.mp this with rfl | hrest
                    · exact absurd rfl hgq
                    · exact List.mem_append.mpr (Or.inl hrest)
                frame_agree := by
                  intro g hg p' hp'
                  have hane : s.allocated_frames ≠ [] := by
                    intro h0
                    rw [h0] at hg
                    exact absurd hg (List.not_mem_nil g)
                  have hq0alloc : q0 ∈ s.allocated_frames :=
                    hinv.queue_sub hane q0 hq0q
                  obtain ⟨rpg', hrp', hexr, hfnr⟩ :=
                    hinv.frame_agree q0 hq0alloc p hfr
                  rw [hrp] at hrp'
                  cases hrp'
                  have hpnp : p ≠ page_no := by
                    intro he
                    rw [he, hpt] at hrp
                    cases hrp
                    rw [hex] at hexr
                    cases hexr
                  by_cases hgq : g = q0
                  · rw [hgq] at hp' ⊢
                    rw [getD_set_self _ _ _ _ hq0lt] at hp'
                    cases hp'
                    refine ⟨_, List.getElem?_set_self (by
                      rw [List.length_set]
                      exact hplt), rfl, rfl⟩
                  · rw [getD_set_ne _ _ _ _ _ (fun he => hgq he.symm)] at hp'
                    obtain ⟨pg, hpg, hexg, hfng⟩ :=
                      hinv.frame_agree g hg p' hp'
                    have hppn : p' ≠ page_no := by
                      intro he
                      rw [he, hpt] at hpg
                      cases hpg
                      rw [hex] at hexg
                      cases hexg
                    have hppp : p' ≠ p := by
                      intro he
                      rw [he, hrp] at hpg
                      cases hpg
                      rw [hfnr] at hfng
                      cases hfng
                      exact hgq rfl
                    refine ⟨pg, ?_, hexg, hfng⟩
                    rw [List.getElem?_set_ne (fun he => hppn he.symm),
                      List.getElem?_set_ne (fun he => hppp he.symm)]
                    exact hpg
                resident_agree := by
                  intro i pg hpg hexi
                  by_cases hip : i = page_no
                  · rw [hip] at hpg ⊢
                    rw [List.getElem?_set_self (by
                      rw [List.length_set]
                      exact hplt)] at hpg
                    cases hpg
                    refine ⟨q0, rfl, ?_, ?_⟩
                    · rw [List.length_set]
                      exact hq0lt
                    · rw [getD_set_self _ _ _ _ hq0lt]
                  · rw [List.getElem?_set_ne (fun he => hip he.symm)] at hpg
                    by_cases hipp : i = p
                    · rw [hipp] at hpg
                      rw [List.getElem?_set_self hrplt] at hpg
                      cases hpg
                      cases hexi
                    · rw [List.getElem?_set_ne
                        (fun he => hipp he.symm)] at hpg
                      obtain ⟨fi, hfno, hfilt, hfsome⟩ :=
                        hinv.resident_agree i pg hpg hexi
                      have hfiq : fi ≠ q0 := by
                        intro he
                        rw [he, hfr] at hfsome
                        cases hfsome
                        exact hipp rfl
                      refine ⟨fi, hfno, ?_, ?_⟩
                      · rw [List.length_set]
                        exact hfilt
                      · rw [getD_set_ne _ _ _ _ _ (fun he => hfiq he.symm)]
                        exact hfsome }
      · -- free allocated frame available
        rw [access_fault_free s page_no offset op page f fs hpt hex hff]
          at hstep
        simp only [Option.some.injEq, Prod.mk.injEq] at hstep
        obtain ⟨rfl, -⟩ := hstep
        have hfmem : f ∈ s.allocated_frames ∧
            s.frames.getD f none = none := by
          have : f ∈ s.allocated_frames.filter
              (fun g => s.frames.getD g none == none) := by
            rw [hff]
            exact List.mem_cons_self _ _
          refine ⟨List.mem_of_mem_filter this, ?_⟩
          have := List.of_mem_filter this
          simpa using this
        have hflt : f < s.frames.length := hinv.alloc_lt f hfmem.1
        have hfque : f ∉ s.frame_queue := by
          intro hf
          exact hinv.queue_filled f hf hfmem.2
        exact {
          frames_len := by
            rw [List.length_set]
            exact hinv.frames_len
          alloc_sorted := hinv.alloc_sorted
          alloc_lt := by
            intro g hg
            rw [List.length_set]
            exact hinv.alloc_lt g hg
          queue_lt := by
            intro g hg
            rw [List.length_set]
            rcases List.mem_append.mp hg with hg | hg
            · exact hinv.queue_lt g hg
            · rcases List.mem_singleton.mp hg with rfl
              exact hflt
          queue_nodup := by
            rw [List.nodup_append]
            refine ⟨hinv.queue_nodup, List.nodup_singleton f, ?_⟩
            intro g hg hgf
            rcases List.mem_singleton.mp hgf with rfl
            exact hfque hg
          queue_filled := by
            intro g hg
            by_cases hgf : g = f
            · subst hgf
              rw [getD_set_self _ _ _ _ hflt]
              simp
            · rw [getD_set_ne _ _ _ _ _ (fun he => hgf he.symm)]
              rcases List.mem_append.mp hg with hg | hg
              · exact hinv.queue_filled g hg
              · exact absurd (List.mem_singleton.mp hg) hgf
          queue_sub := by
            intro hne g hg
            rcases List.mem_append.mp hg with hg | hg
            · exact hinv.queue_sub hne g hg
            · rcases List.mem_singleton.mp hg with rfl
              exact hfmem.1
          filled_in_queue := by
            intro g hg hgne
            by_cases hgf : g = f
            · subst hgf
              exact List.mem_append.mpr (Or.inr (List.mem_singleton.mpr rfl))
            · rw [getD_set_ne _ _ _ _ _ (fun he => hgf he.symm)] at hgne
              exact List.mem_append.mpr
                (Or.inl (hinv.filled_in_queue g hg hgne))
          frame_agree := by
            intro g hg p hp
            by_cases hgf : g = f
            · subst hgf
              rw [getD_set_self _ _ _ _ hflt] at hp
              cases hp
              refine ⟨_, List.getElem?_set_self hplt, rfl, rfl⟩
            · rw [getD_set_ne _ _ _ _ _ (fun he => hgf he.symm)] at hp
              obtain ⟨pg, hpg, hexg, hfng⟩ := hinv.frame_agree g hg p hp
              have hppn : p ≠ page_no := by
                intro he
                subst he
                rw [hpt] at hpg
                cases hpg
                rw [hex] at hexg
                cases hexg
              exact ⟨pg, by
                rw [List.getElem?_set_ne (fun he => hppn he.symm)]
                exact hpg, hexg, hfng⟩
          resident_agree := by
            intro i pg hpg hexi
            by_cases hip : i = page_no
            · subst hip
              rw [List.getElem?_set_self hplt] at hpg
              cases hpg
              refine ⟨f, rfl, ?_, ?_⟩
              · rw [List.length_set]
                exact hflt
              · rw [getD_set_self _ _ _ _ hflt]
            · rw [List.getElem?_set_ne (fun he => hip he.symm)] at hpg
              obtain ⟨fi, hfno, hfilt, hfsome⟩ :=
                hinv.resident_agree i pg hpg hexi
              have hfif : fi ≠ f := by
                intro he
                subst he
                rw [hfmem.2] at hfsome
                cases hfsome
              refine ⟨fi, hfno, ?_, ?_⟩
              · rw [List.length_set]
                exact hfilt
              · rw [getD_set_ne _ _ _ _ _ (fun he => hfif he.symm)]
                exact hfsome }
    · -- resident page
      rcases hfn : page.frame_no with _ | f
      · rw [access_resident_crash s page_no offset op page hpt hex hfn]
          at hstep
        cases hstep
      · rw [access_resident s page_no offset op page f hpt hex hfn] at hstep
        simp only [Option.some.injEq, Prod.mk.injEq] at hstep
        obtain ⟨rfl, -⟩ := hstep
        exact {
          frames_len := hinv.frames_len
          alloc_sorted := hinv.alloc_sorted
          alloc_lt := hinv.alloc_lt
          queue_lt := hinv.queue_lt
          queue_nodup := hinv.queue_nodup
          queue_filled := hinv.queue_filled
          queue_sub := hinv.queue_sub
          filled_in_queue := hinv.filled_in_queue
          frame_agree := by
            intro g hg p hp
            obtain ⟨pg, hpg, hexg, hfng⟩ := hinv.frame_agree g hg p hp
            by_cases hppn : p = page_no
            · subst hppn
              rw [hpt] at hpg
              cases hpg
              exact ⟨_, List.getElem?_set_self hplt, hexg, hfng⟩
            · exact ⟨pg, by
                rw [List.getElem?_set_ne (fun he => hppn he.symm)]
                exact hpg, hexg, hfng⟩
          resident_agree := by
            intro i pg' hpg' hexi
            by_cases hip : i = page_no
            · subst hip
              rw [List.getElem?_set_self hplt] at hpg'
              cases hpg'
              exact hinv.resident_agree _ page hpt hex
            · rw [List.getElem?_set_ne (fun he => hip he.symm)] at hpg'
              exact hinv.resident_agree i pg' hpg' hexi }

/-- Every reachable paging state satisfies the invariant. -/
theorem pagingInv_of_reachable {s : DynamicPaging}
    (h : PagingReachable s) : PagingInv s := by
  induction h with
  | init ms ps mjs =>
    exact {
      frames_len := List.length_replicate _ _
      alloc_sorted := List.Pairwise.nil
      alloc_lt := by intro f hf; exact absurd hf (List.not_mem_nil f)
      queue_lt := by intro f hf; exact absurd hf (List.not_mem_nil f)
      queue_nodup := List.nodup_nil
      queue_filled := by intro f hf; exact absurd hf (List.not_mem_nil f)
      queue_sub := by intro _ f hf; exact absurd hf (List.not_mem_nil f)
      filled_in_queue := by intro f hf; exact absurd hf (List.not_mem_nil f)
      frame_agree := by intro f hf; exact absurd hf (List.not_mem_nil f)
      resident_agree := by
        intro i pg hpg
        simp [initPaging] at hpg }
  | create s job_id job_size afc hs ih =>
    exact pagingInv_create s job_id job_size afc ih
  | access s s' page_no offset op a f m hs hstep ih =>
    exact pagingInv_access s s' page_no offset op a f m hstep ih

/-! ## Claim C2: the paging invariant as claimed -/

/-- Conclusion of the amended claim C2: the FIFO queue never repeats a
frame; every *currently allocated* frame that holds a page agrees with
a resident page-table entry pointing back at it; and every resident
page's frame slot holds that page's number. -/
def PagingInvSpec (s : DynamicPaging) : Prop :=
  s.frame_queue.Nodup ∧
  (∀ f ∈ s.allocated_frames, ∀ p, s.frames.getD f none = some p →
    ∃ pg, s.page_table[p]? = some pg ∧ pg.page_exists = true ∧
      pg.frame_no = some f) ∧
  (∀ (i : Nat) (pg : Page), s.page_table[i]? = some pg →
    pg.page_exists = true →
    ∃ f, pg.frame_no = some f ∧ s.frames.getD f none = some i)

/-- **C2** (amended, see `C2_paging_invariant_counterexample`): in
every reachable paging state, each frame index occurs at most once in
the FIFO queue; every frame *of the current job's allocated-frame
list* holding a page number `p` corresponds to a resident entry `p`
mapped to that frame; and conversely every resident page's frame slot
holds that page's number.  (The frame/page-table agreement cannot be
stated for *all* frame slots: frames of a previous job are never
reclaimed and go stale when the page table is rebuilt.) -/
theorem C2_paging_invariant (s : DynamicPaging)
    (h : PagingReachable s) : PagingInvSpec s := by
  have i := pagingInv_of_reachable h
  refine ⟨i.queue_nodup, i.frame_agree, ?_⟩
  intro j pg hpg hexj
  obtain ⟨f, hfno, -, hfsome⟩ := i.resident_agree j pg hpg hexj
  exact ⟨f, hfno, hfsome⟩

/-- The state after `create_job(1, 1024, 1)` and `access(0)` on a
two-frame engine: page 0 of job 1 is resident in frame 0. -/
def c2mid : DynamicPaging :=
  ⟨2048, 1024, 2048, 2, [some 0, none], some ⟨1, 1024, 1, 1⟩,
   [⟨0, true, some 0, false⟩], [0], [0]⟩

theorem c2mid_reachable : PagingReachable c2mid :=
  PagingReachable.access ((initPaging 2 1 2).create_job 1 1024 1).1 c2mid
    0 0 "load" (some 0) true none
    (PagingReachable.create (initPaging 2 1 2) 1 1024 1
      (PagingReachable.init 2 1 2))
    (by decide)

/-- The state after then creating job 2 (one page, one frame): the
creation *succeeds* using the one remaining empty frame, while frame 0
still holds the stale page number 0 of job 1. -/
def c2state : DynamicPaging := (c2mid.create_job 2 1024 1).1

theorem c2state_reachable : PagingReachable c2state :=
  PagingReachable.create c2mid 2 1024 1 c2mid_reachable

/-- **C2 counterexample**: in the reachable state `c2state`, frame
slot 0 holds page number 0, yet the page-table entry for page 0 is
non-resident (with no frame assigned) — the claimed invariant "for
every frame slot that holds a page number p, the page-table entry for
p is resident with its frame number equal to that slot's index" fails
for frames outside the current job's allocated-frame list. -/
theorem C2_paging_invariant_counterexample :
    PagingReachable c2state ∧
    c2state.frames.getD 0 none = some 0 ∧
    c2state.page_table[0]? = some (Page.mk 0 false none false) :=
  ⟨c2state_reachable, by decide, by decide⟩

/-- Witness for the amended C2 at the reachable state `c2mid`. -/
theorem C2_paging_invariant_witness :
    PagingReachable c2mid ∧ PagingInvSpec c2mid :=
  ⟨c2mid_reachable, C2_paging_invariant c2mid c2mid_reachable⟩

/-! ## Claim C3: the two page-fault branches -/

/-- The page-table entry written for the page faulted in. -/
def faultInPage (pg : Page) (f : Nat) (op : String) : Page :=
  { pg with page_exists := true, frame_no := some f,
            modified := pg.modified || isWriteOp op }

/-- The page-table entry left behind for an evicted page. -/
def evictedEntry (rpg : Page) : Page :=
  { rpg with page_exists := false, frame_no := none }

/-- Conclusion of the amended claim C3, for an access to a
non-resident page `page_no` (entry `pg`) of the current table:

1. if some allocated frame is empty, the lowest-indexed such frame
   receives the page, is appended to the FIFO queue, no page is
   evicted, and the call returns `page_fault = true` with physical
   address `frame * page_size + offset`;
2. otherwise (allocated-frame list non-empty, all frames full) the
   oldest frame is popped from the FIFO queue, the page it held is
   marked non-resident with its frame assignment cleared and is
   reported as evicted, the requesting page is mapped there, the frame
   is re-appended at the tail, and the call returns `page_fault =
   true` with physical address `frame * page_size + offset`;
3. if no allocated frame is empty and the FIFO queue is empty (e.g. a
   zero-frame job), the call returns *no* physical address with
   `page_fault = true` and the state unchanged. -/
def FaultBranchSpec (s : DynamicPaging) (page_no offset : Nat)
    (op : String) (pg : Page) : Prop :=
  ((∃ f ∈ s.allocated_frames, s.frames.getD f none = none) →
    ∃ f s1,
      f ∈ s.allocated_frames ∧ s.frames.getD f none = none ∧
      (∀ g ∈ s.allocated_frames, s.frames.getD g none = none → f ≤ g) ∧
      s.access_memory page_no offset op =
        some (s1, some (f * s.page_size + offset), true, none) ∧
      s1.frames = s.frames.set f (some page_no) ∧
      s1.frame_queue = s.frame_queue ++ [f] ∧
      s1.page_table[page_no]? = some (faultInPage pg f op) ∧
      (∀ j, j ≠ page_no → s1.page_table[j]? = s.page_table[j]?)) ∧
  (s.allocated_frames ≠ [] →
    (∀ f ∈ s.allocated_frames, s.frames.getD f none ≠ none) →
    ∃ q0 rest p rpg s1,
      s.frame_queue = q0 :: rest ∧
      s.frames.getD q0 none = some p ∧
      s.page_table[p]? = some rpg ∧ p ≠ page_no ∧
      s.access_memory page_no offset op =
        some (s1, some (q0 * s.page_size + offset), true,
          some (.replaced (.evictedPage p))) ∧
      s1.frames = s.frames.set q0 (some page_no) ∧
      s1.frame_queue = rest ++ [q0] ∧
      s1.page_table[p]? = some (evictedEntry rpg) ∧
      s1.page_table[page_no]? = some (faultInPage pg q0 op) ∧
      (∀ j, j ≠ page_no → j ≠ p →
        s1.page_table[j]? = s.page_table[j]?)) ∧
  ((∀ f ∈ s.allocated_frames, s.frames.getD f none ≠ none) →
    s.frame_queue = [] →
    s.access_memory page_no offset op =
      some (s, none, true, some .cannotLoadPage))

/-- **C3** (amended, see `C3_fault_branches_counterexample`): behavior
of `access_memory` on a non-resident page of the current page table,
in every reachable state. -/
theorem C3_fault_branches (s : DynamicPaging) (page_no offset : Nat)
    (op : String) (pg : Page) (h : PagingReachable s)
    (hpt : s.page_table[page_no]? = some pg)
    (hnr : pg.page_exists = false) :
    FaultBranchSpec s page_no offset op pg := by
  have hinv := pagingInv_of_reachable h
  have hplt : page_no < s.page_table.length := by
    rcases List.getElem?_eq_some.mp hpt with ⟨hlt, -⟩
    exact hlt
  refine ⟨?_, ?_, ?_⟩
  · -- an empty allocated frame exists
    intro hfree
    rcases hff : s.allocated_frames.filter
        (fun g => s.frames.getD g none == none) with _ | ⟨f, fs⟩
    · exfalso
      obtain ⟨f, hf, hfnone⟩ := hfree
      have := List.filter_eq_nil_iff.mp hff f hf
      rw [hfnone] at this
      simp at this
    · have hfin : f ∈ s.allocated_frames.filter
          (fun g => s.frames.getD g none == none) := by
        rw [hff]
        exact List.mem_cons_self _ _
      have hfmem : f ∈ s.allocated_frames := List.mem_of_mem_filter hfin
      have hfnone : s.frames.getD f none = none := by
        have := List.of_mem_filter hfin
        simpa using this
      have hmin : ∀ g ∈ s.allocated_frames,
          s.frames.getD g none = none → f ≤ g := by
        intro g hg hgnone
        have hgin : g ∈ s.allocated_frames.filter
            (fun g => s.frames.getD g none == none) := by
          refine List.mem_filter.mpr ⟨hg, ?_⟩
          rw [hgnone]
          rfl
        rw [hff] at hgin
        rcases List.mem_cons.mp hgin with rfl | hgin
        · exact le_rfl
        · have hpw := hinv.alloc_sorted.filter
            (fun g => s.frames.getD g none == none)
          rw [hff] at hpw
          exact le_of_lt ((List.pairwise_cons.mp hpw).1 g hgin)
      refine ⟨f, _, hfmem, hfnone, hmin,
        access_fault_free s page_no offset op pg f fs hpt hnr hff,
        rfl, rfl, ?_, ?_⟩
      · exact List.getElem?_set_self hplt
      · intro j hj
        exact List.getElem?_set_ne (fun he => hj he.symm)
  · -- all allocated frames full: FIFO replacement
    intro hne hfull
    have hff : s.allocated_frames.filter
        (fun g => s.frames.getD g none == none) = [] := by
      refine List.filter_eq_nil_iff.mpr ?_
      intro g hg
      have := hfull g hg
      simpa using this
    rcases ha : s.allocated_frames with _ | ⟨a0, as⟩
    · exact absurd ha hne
    · have ha0 : a0 ∈ s.allocated_frames := by
        rw [ha]
        exact List.mem_cons_self _ _
      have ha0q : a0 ∈ s.frame_queue :=
        hinv.filled_in_queue a0 ha0 (hfull a0 ha0)
      rcases hq : s.frame_queue with _ | ⟨q0, rest⟩
      · rw [hq] at ha0q
        exact absurd ha0q (List.not_mem_nil a0)
      · have hq0q : q0 ∈ s.frame_queue := by
          rw [hq]
          exact List.mem_cons_self _ _
        rcases hfr : s.frames.getD q0 none with _ | p
        · exact absurd hfr (hinv.queue_filled q0 hq0q)
        · have hq0a : q0 ∈ s.allocated_frames := hinv.queue_sub hne q0 hq0q
          obtain ⟨rpg, hrp, hexr, hfnr⟩ := hinv.frame_agree q0 hq0a p hfr
          have hrplt : p < s.page_table.length := by
            rcases List.getElem?_eq_some.mp hrp with ⟨hlt, -⟩
            exact hlt
          have hpnp : p ≠ page_no := by
            intro he
            rw [he, hpt] at hrp
            cases hrp
            rw [hnr] at hexr
            cases hexr
          refine ⟨q0, rest, p, rpg, _, rfl, hfr, hrp, hpnp,
            access_fault_replace s page_no offset op pg q0 rest p rpg
              hpt hnr hff hq hfr hrp,
            rfl, rfl, ?_, ?_, ?_⟩
          · rw [List.getElem?_set_ne (fun he => hpnp he.symm),
              List.getElem?_set_self hrplt]
            rfl
          · rw [List.getElem?_set_self (by
              rw [List.length_set]
              exact hplt)]
            rfl
          · intro j hjn hjp
            rw [List.getElem?_set_ne (fun he => hjn he.symm),
              List.getElem?_set_ne (fun he => hjp he.symm)]
  · -- no allocated frame empty and empty FIFO queue
    intro hfull hq
    have hff : s.allocated_frames.filter
        (fun g => s.frames.getD g none == none) = [] := by
      refine List.filter_eq_nil_iff.mpr ?_
      intro g hg
      have := hfull g hg
      simpa using this
    exact access_fault_stuck s page_no offset op pg hpt hnr hff hq

/-- The state after creating a two-page job with zero allocated frames
on a two-frame engine. -/
def c3state : DynamicPaging := ((initPaging 2 1 2).create_job 1 2048 0).1

theorem c3state_reachable : PagingReachable c3state :=
  PagingReachable.create (initPaging 2 1 2) 1 2048 0
    (PagingReachable.init 2 1 2)

/-- **C3 counterexample**: in the reachable state `c3state` (a job
with an empty allocated-frame list), no allocated frame is empty, so
the claim demands that the oldest frame be popped from the FIFO queue
and a physical address returned; instead the queue is empty, the call
returns *no* physical address (with `page_fault = true`) and the state
is unchanged — no frame is popped and no page is mapped. -/
theorem C3_fault_branches_counterexample :
    PagingReachable c3state ∧
    c3state.allocated_frames = [] ∧
    c3state.frame_queue = [] ∧
    c3state.page_table[0]? = some (Page.mk 0 false none false) ∧
    c3state.access_memory 0 5 "save" =
      some (c3state, none, true, some AccessMsg.cannotLoadPage) :=
  ⟨c3state_reachable, by decide, by decide, by decide, by decide⟩

/-- The state after creating a two-page job with one allocated frame
on a one-frame engine. -/
def c3wit : DynamicPaging := ((initPaging 1 1 2).create_job 7 2048 1).1

theorem c3wit_reachable : PagingReachable c3wit :=
  PagingReachable.create (initPaging 1 1 2) 7 2048 1
    (PagingReachable.init 1 1 2)

/-- Witness for the amended C3 at the reachable state `c3wit`. -/
theorem C3_fault_branches_witness :
    (PagingReachable c3wit ∧
      c3wit.page_table[0]? = some (Page.mk 0 false none false) ∧
      (Page.mk 0 false none false).page_exists = false) ∧
    FaultBranchSpec c3wit 0 3 "load" (Page.mk 0 false none false) :=
  ⟨⟨c3wit_reachable, by decide, by decide⟩,
   C3_fault_branches c3wit 0 3 "load" (Page.mk 0 false none false)
     c3wit_reachable (by decide) (by decide)⟩
